import Mathlib

/-!
Verification of the kubeSize capacity-aggregation engine.

Shallow embedding of the Go sources:
* resource quantities are exact integers in their base unit
  (millicores for CPU, bytes for memory and ephemeral storage, counts for pods);
  `k8s.io/apimachinery` quantity `Add`/`Sub` is exact integer arithmetic;
* Go `float64` presentation fields are modelled by exact rationals;
* Go maps with pointer values are modelled as functions into `Option`,
  where a lookup of a missing key yields `none` (the Go `nil` pointer);
* Go string sets (`sets.String`) are modelled by duplicate-free lists whose
  `List()` view is the lexicographically sorted list.
-/

/-- String used by the Go sources as the role label key prefix. -/
def roleLabelPre : String := "node-role.kubernetes.io/"

/-- The legacy single-value role label key. -/
def legacyRoleKey : String := "kubernetes.io/role"

/-- Sentinel role for nodes with no recognized role label. -/
def noneRoleName : String := "<none>"

/-- Synthetic bucket for pods that have no assigned node. -/
def unassignedKey : String := "*unassigned*"

/-- Synthetic bucket for the grand total row of the node grouping. -/
def grandTotalKey : String := "*total*"

/-- Bucket key used by the node grouping for the synthetic rows in role-sorted display. -/
def tildeKey : String := "~"

/-- Node condition type checked for readiness. -/
def readyCondType : String := "Ready"

/-- Node condition status value counted as ready. -/
def condTrue : String := "True"

/-- Terminal pod phase. -/
def phaseSucceeded : String := "Succeeded"

/-- Terminal pod phase. -/
def phaseFailed : String := "Failed"

/-- Separator used to build a node role-list signature. -/
def commaSep : String := ","

/-- Go `strings.HasPrefix` on the character lists of the strings. -/
def hasPre (pre s : String) : Bool := pre.data.isPrefixOf s.data

/-- Go `strings.TrimPrefix` under a established `hasPre` guard: drop the characters of the prefix. -/
def trimPre (pre s : String) : String := String.mk (s.data.drop pre.data.length)

/-- Lexicographic (byte-wise, here character-wise) string order used by Go
`sort.Strings` and string comparison; kernel-computable. -/
def strLe (a b : String) : Prop := a.data ≤ b.data

instance : DecidableRel strLe := fun a b => inferInstanceAs (Decidable (a.data ≤ b.data))

/-- Strict lexicographic string order. -/
def strLt (a b : String) : Prop := a.data < b.data

instance : DecidableRel strLt := fun a b => inferInstanceAs (Decidable (a.data < b.data))

instance : IsTotal String strLe := ⟨fun a b => le_total a.data b.data⟩

instance : IsTrans String strLe := ⟨fun _ _ _ h1 h2 => le_trans h1 h2⟩

instance : IsAntisymm String strLe :=
  ⟨fun a b h1 h2 => by
    cases a; cases b
    simp only [strLe] at h1 h2
    exact congrArg String.mk (le_antisymm h1 h2)⟩

/-- Resource requests and limits of one container; `none` models an absent
entry in the Go resource list, which the client library reads back as the
zero quantity. -/
structure ContainerResources where
  requestsCPU : Option Int := none
  limitsCPU : Option Int := none
  requestsMemory : Option Int := none
  limitsMemory : Option Int := none
  requestsEphemeralStorage : Option Int := none
  limitsEphemeralStorage : Option Int := none
deriving DecidableEq

/-- `container.Resources.Requests.Cpu()`: zero quantity when absent. -/
def reqCPU (c : ContainerResources) : Int := c.requestsCPU.getD 0

/-- `container.Resources.Limits.Cpu()`: zero quantity when absent. -/
def limCPU (c : ContainerResources) : Int := c.limitsCPU.getD 0

/-- `container.Resources.Requests.Memory()`: zero quantity when absent. -/
def reqMem (c : ContainerResources) : Int := c.requestsMemory.getD 0

/-- `container.Resources.Limits.Memory()`: zero quantity when absent. -/
def limMem (c : ContainerResources) : Int := c.limitsMemory.getD 0

/-- `container.Resources.Requests.StorageEphemeral()`: zero quantity when absent. -/
def reqEph (c : ContainerResources) : Int := c.requestsEphemeralStorage.getD 0

/-- `container.Resources.Limits.StorageEphemeral()`: zero quantity when absent. -/
def limEph (c : ContainerResources) : Int := c.limitsEphemeralStorage.getD 0

/-- A workload unit (pod) as read from the inventory snapshot. -/
structure Pod where
  namespaceName : String := ""
  nodeName : String := ""
  phase : String := ""
  containers : List ContainerResources := []
deriving DecidableEq

/-- One entry of a node status condition list. -/
structure NodeCondition where
  condType : String := ""
  status : String := ""
deriving DecidableEq

/-- A node record as read from the inventory snapshot. -/
structure Node where
  name : String := ""
  labels : List (String × String) := []
  conditions : List NodeCondition := []
  unschedulable : Bool := false
  capacityPods : Int := 0
  capacityCPU : Int := 0
  capacityMemory : Int := 0
  capacityEphemeralStorage : Int := 0
  allocatablePods : Int := 0
  allocatableCPU : Int := 0
  allocatableMemory : Int := 0
  allocatableEphemeralStorage : Int := 0
deriving DecidableEq

/-- `pod.Status.Phase != PodSucceeded && pod.Status.Phase != PodFailed`. -/
def nonTerminal (p : Pod) : Bool := p.phase != phaseSucceeded && p.phase != phaseFailed

/-- Number of conditions of type Ready with status True; the cluster and
node-role walkers increment their ready tally once per such condition. -/
def readyCondCount (n : Node) : Int :=
  ((n.conditions.filter (fun c => c.condType == readyCondType && c.status == condTrue)).length : Int)

/-- The per-node walker of `node.go` computes a boolean readiness (it breaks
out of the condition loop at the first match). -/
def nodeReady (n : Node) : Bool :=
  n.conditions.any (fun c => c.condType == readyCondType && c.status == condTrue)

/-- `capacity.ReadableCPU`: millicores to cores. `MilliValue` is the identity
in this embedding since CPU quantities are stored in exact millicores. -/
def ReadableCPU (cpu : Int) : ℚ := (cpu : ℚ) / 1000

/-- `capacity.ReadableMem`: bytes to GiB via three successive divisions by 1024. -/
def ReadableMem (mem : Int) : ℚ := (mem : ℚ) / 1024 / 1024 / 1024

/-- `capacity.ReadableStorage`: bytes to GB via three successive divisions by 1000. -/
def ReadableStorage (storage : Int) : ℚ := (storage : ℚ) / 1000 / 1000 / 1000

/-- Insertion into a Go string set: a duplicate-free list, ignoring re-insertions. -/
def insertRole (s : List String) (r : String) : List String :=
  if r ∈ s then s else s ++ [r]

/-- The label switch shared by `node.go` and the node-role walker: collect role
names from the reserved prefix and the legacy key, ignoring empty suffixes and
empty legacy values. -/
def collectRoles (labels : List (String × String)) : List String :=
  labels.foldl
    (fun s kv =>
      if hasPre roleLabelPre kv.1 then
        (let role := trimPre roleLabelPre kv.1
         if role.length > 0 then insertRole s role else s)
      else if kv.1 = legacyRoleKey ∧ kv.2 ≠ "" then insertRole s kv.2 else s)
    []

/-- The full role classifier: collected roles, the sentinel if none, and the
sorted `List()` view of the set. -/
def rolesOf (labels : List (String × String)) : List String :=
  let s := collectRoles labels
  let s := if s = [] then [noneRoleName] else s
  List.insertionSort strLe s

/-- Role-list signature of a node, `strings.Join(roles.List(), ",")`. -/
def roleSig (roles : List String) : String := String.intercalate commaSep roles

/-- The set of roles described by the specification: non-empty suffixes of
label keys with the reserved prefix together with the non-empty value of the
legacy key, de-duplicated. Written from the claim, to be compared with
`rolesOf`. -/
def specRoleSet (labels : List (String × String)) : List String :=
  ((labels.filterMap fun kv =>
      if hasPre roleLabelPre kv.1 ∧ trimPre roleLabelPre kv.1 ≠ "" then
        some (trimPre roleLabelPre kv.1)
      else none) ++
    (labels.filterMap fun kv =>
      if kv.1 = legacyRoleKey ∧ kv.2 ≠ "" then some kv.2 else none)).dedup

/-- `output.ClusterCapacityData`: the rollup record used by the cluster and
node-role groupings. Exact quantities are integers, Go `float64` companions
are rationals, Go `int` counters are integers. -/
structure ClusterCapacityData where
  TotalNodeCount : Int := 0
  TotalReadyNodeCount : Int := 0
  TotalUnreadyNodeCount : Int := 0
  TotalUnschedulableNodeCount : Int := 0
  TotalPodCount : Int := 0
  TotalNonTermPodCount : Int := 0
  TotalCapacityPods : Int := 0
  TotalCapacityCPU : Int := 0
  TotalCapacityCPUCores : ℚ := 0
  TotalCapacityMemory : Int := 0
  TotalCapacityMemoryGiB : ℚ := 0
  TotalCapacityEphemeralStorage : Int := 0
  TotalCapacityEphemeralStorageGB : ℚ := 0
  TotalAllocatablePods : Int := 0
  TotalAllocatableCPU : Int := 0
  TotalAllocatableCPUCores : ℚ := 0
  TotalAllocatableMemory : Int := 0
  TotalAllocatableMemoryGiB : ℚ := 0
  TotalAllocatableEphemeralStorage : Int := 0
  TotalAllocatableEphemeralStorageGB : ℚ := 0
  TotalAvailablePods : Int := 0
  TotalRequestsCPU : Int := 0
  TotalRequestsCPUCores : ℚ := 0
  TotalLimitsCPU : Int := 0
  TotalLimitsCPUCores : ℚ := 0
  TotalAvailableCPU : Int := 0
  TotalAvailableCPUCores : ℚ := 0
  TotalRequestsMemory : Int := 0
  TotalRequestsMemoryGiB : ℚ := 0
  TotalLimitsMemory : Int := 0
  TotalLimitsMemoryGiB : ℚ := 0
  TotalAvailableMemory : Int := 0
  TotalAvailableMemoryGiB : ℚ := 0
  TotalRequestsEphemeralStorage : Int := 0
  TotalRequestsEphemeralStorageGB : ℚ := 0
  TotalLimitsEphemeralStorage : Int := 0
  TotalLimitsEphemeralStorageGB : ℚ := 0
  TotalAvailableEphemeralStorage : Int := 0
  TotalAvailableEphemeralStorageGB : ℚ := 0
deriving DecidableEq

/-- `output.NodeCapacityData`: the per-node rollup record of the node grouping. -/
structure NodeCapacityData where
  TotalPodCount : Int := 0
  TotalNonTermPodCount : Int := 0
  Roles : List String := []
  Ready : Bool := false
  Schedulable : Bool := false
  TotalCapacityPods : Int := 0
  TotalCapacityCPU : Int := 0
  TotalCapacityCPUCores : ℚ := 0
  TotalCapacityMemory : Int := 0
  TotalCapacityMemoryGiB : ℚ := 0
  TotalCapacityEphemeralStorage : Int := 0
  TotalCapacityEphemeralStorageGB : ℚ := 0
  TotalAllocatablePods : Int := 0
  TotalAllocatableCPU : Int := 0
  TotalAllocatableCPUCores : ℚ := 0
  TotalAllocatableMemory : Int := 0
  TotalAllocatableMemoryGiB : ℚ := 0
  TotalAllocatableEphemeralStorage : Int := 0
  TotalAllocatableEphemeralStorageGB : ℚ := 0
  TotalAvailablePods : Int := 0
  TotalRequestsCPU : Int := 0
  TotalRequestsCPUCores : ℚ := 0
  TotalLimitsCPU : Int := 0
  TotalLimitsCPUCores : ℚ := 0
  TotalAvailableCPU : Int := 0
  TotalAvailableCPUCores : ℚ := 0
  TotalRequestsMemory : Int := 0
  TotalRequestsMemoryGiB : ℚ := 0
  TotalLimitsMemory : Int := 0
  TotalLimitsMemoryGiB : ℚ := 0
  TotalAvailableMemory : Int := 0
  TotalAvailableMemoryGiB : ℚ := 0
  TotalRequestsEphemeralStorage : Int := 0
  TotalRequestsEphemeralStorageGB : ℚ := 0
  TotalLimitsEphemeralStorage : Int := 0
  TotalLimitsEphemeralStorageGB : ℚ := 0
  TotalAvailableEphemeralStorage : Int := 0
  TotalAvailableEphemeralStorageGB : ℚ := 0
deriving DecidableEq

/-- `output.NamespaceCapacityData`: the per-namespace rollup record. -/
structure NamespaceCapacityData where
  TotalPodCount : Int := 0
  TotalNonTermPodCount : Int := 0
  TotalUnassignedNodePodCount : Int := 0
  TotalRequestsCPU : Int := 0
  TotalRequestsCPUCores : ℚ := 0
  TotalLimitsCPU : Int := 0
  TotalLimitsCPUCores : ℚ := 0
  TotalRequestsMemory : Int := 0
  TotalRequestsMemoryGiB : ℚ := 0
  TotalLimitsMemory : Int := 0
  TotalLimitsMemoryGiB : ℚ := 0
  TotalRequestsEphemeralStorage : Int := 0
  TotalRequestsEphemeralStorageGB : ℚ := 0
  TotalLimitsEphemeralStorage : Int := 0
  TotalLimitsEphemeralStorageGB : ℚ := 0
deriving DecidableEq

/-- `RoleCapacityData` of the historical `cmd/node-role.go` walker. -/
structure RoleCapacityData where
  totalNodeCount : Int := 0
  totalReadyNodeCount : Int := 0
  totalUnreadyNodeCount : Int := 0
  totalUnschedulableNodeCount : Int := 0
  totalCapacityPods : Int := 0
  totalCapacityCPU : Int := 0
  totalCapacityMemory : Int := 0
  totalAllocatablePods : Int := 0
  totalAllocatableCPU : Int := 0
  totalAllocatableMemory : Int := 0
  totalRequestsCPU : Int := 0
  totalLimitsCPU : Int := 0
  totalRequestsMemory : Int := 0
  totalLimitsMemory : Int := 0
  totalPodCount : Int := 0
  totalNonTermPodCount : Int := 0
deriving DecidableEq

/-- Update one key of a string-keyed map (Go map assignment). -/
def updMap {β : Type} (m : String → Option β) (k : String) (v : β) : String → Option β :=
  fun q => if q = k then some v else m q

/-- The empty string-keyed map. -/
def emptyMap {β : Type} : String → Option β := fun _ => none

/-- Go `nodesByRole[k] = append(nodesByRole[k], v)` on an association list. -/
def alAppend (al : List (String × List String)) (k v : String) : List (String × List String) :=
  match al with
  | [] => [(k, [v])]
  | (k0, vs) :: rest => if k0 = k then (k0, vs ++ [v]) :: rest else (k0, vs) :: alAppend rest k v

/-- Lookup on the association list; a missing key yields the empty (nil) slice. -/
def alGet (al : List (String × List String)) (k : String) : List String :=
  match al with
  | [] => []
  | (k0, vs) :: rest => if k0 = k then vs else alGet rest k

/-- The cluster walker's per-node accumulation (`cluster.go` node loop). -/
def clusterNodeAcc (acc : ClusterCapacityData) (n : Node) : ClusterCapacityData :=
  { acc with
    TotalNodeCount := acc.TotalNodeCount + 1
    TotalReadyNodeCount := acc.TotalReadyNodeCount + readyCondCount n
    TotalUnschedulableNodeCount :=
      acc.TotalUnschedulableNodeCount + (if n.unschedulable then 1 else 0)
    TotalCapacityPods := acc.TotalCapacityPods + n.capacityPods
    TotalCapacityCPU := acc.TotalCapacityCPU + n.capacityCPU
    TotalCapacityMemory := acc.TotalCapacityMemory + n.capacityMemory
    TotalCapacityEphemeralStorage :=
      acc.TotalCapacityEphemeralStorage + n.capacityEphemeralStorage
    TotalAllocatablePods := acc.TotalAllocatablePods + n.allocatablePods
    TotalAllocatableCPU := acc.TotalAllocatableCPU + n.allocatableCPU
    TotalAllocatableMemory := acc.TotalAllocatableMemory + n.allocatableMemory
    TotalAllocatableEphemeralStorage :=
      acc.TotalAllocatableEphemeralStorage + n.allocatableEphemeralStorage }

/-- Per-container request/limit addition on a `ClusterCapacityData` record. -/
def contAddC (a : ClusterCapacityData) (c : ContainerResources) : ClusterCapacityData :=
  { a with
    TotalRequestsCPU := a.TotalRequestsCPU + reqCPU c
    TotalLimitsCPU := a.TotalLimitsCPU + limCPU c
    TotalRequestsMemory := a.TotalRequestsMemory + reqMem c
    TotalLimitsMemory := a.TotalLimitsMemory + limMem c
    TotalRequestsEphemeralStorage := a.TotalRequestsEphemeralStorage + reqEph c
    TotalLimitsEphemeralStorage := a.TotalLimitsEphemeralStorage + limEph c }

/-- The cluster walker's per-pod request/limit accumulation over containers. -/
def clusterPodAcc (acc : ClusterCapacityData) (p : Pod) : ClusterCapacityData :=
  p.containers.foldl contAddC acc

/-- The whole-cluster aggregation of `cmd/capacity/cluster.go`. The server-side
field selector for non-terminal pods is modelled as a filter of the same
snapshot. -/
def clusterCapacity (nodes : List Node) (pods : List Pod) : ClusterCapacityData :=
  let nonTermPods := pods.filter nonTerminal
  let d := nodes.foldl clusterNodeAcc {}
  let d := { d with TotalUnreadyNodeCount := d.TotalNodeCount - d.TotalReadyNodeCount }
  let d := { d with
    TotalPodCount := (pods.length : Int)
    TotalNonTermPodCount := (nonTermPods.length : Int) }
  let d := nonTermPods.foldl clusterPodAcc d
  let d := { d with
    TotalAvailablePods := d.TotalAllocatablePods - d.TotalNonTermPodCount
    TotalAvailableCPU := d.TotalAllocatableCPU - d.TotalRequestsCPU
    TotalAvailableMemory := d.TotalAllocatableMemory - d.TotalRequestsMemory
    TotalAvailableEphemeralStorage :=
      d.TotalAllocatableEphemeralStorage - d.TotalRequestsEphemeralStorage }
  { d with
    TotalCapacityCPUCores := ReadableCPU d.TotalCapacityCPU
    TotalCapacityMemoryGiB := ReadableMem d.TotalCapacityMemory
    TotalCapacityEphemeralStorageGB := ReadableStorage d.TotalCapacityEphemeralStorage
    TotalAllocatableCPUCores := ReadableCPU d.TotalAllocatableCPU
    TotalAllocatableMemoryGiB := ReadableMem d.TotalAllocatableMemory
    TotalAllocatableEphemeralStorageGB := ReadableStorage d.TotalAllocatableEphemeralStorage
    TotalAvailableCPUCores := ReadableCPU d.TotalAvailableCPU
    TotalAvailableMemoryGiB := ReadableMem d.TotalAvailableMemory
    TotalAvailableEphemeralStorageGB := ReadableStorage d.TotalAvailableEphemeralStorage
    TotalRequestsCPUCores := ReadableCPU d.TotalRequestsCPU
    TotalLimitsCPUCores := ReadableCPU d.TotalLimitsCPU
    TotalRequestsMemoryGiB := ReadableMem d.TotalRequestsMemory
    TotalLimitsMemoryGiB := ReadableMem d.TotalLimitsMemory
    TotalRequestsEphemeralStorageGB := ReadableStorage d.TotalRequestsEphemeralStorage
    TotalLimitsEphemeralStorageGB := ReadableStorage d.TotalLimitsEphemeralStorage }

/-- State built by the node walk of `cmd/capacity/node.go` (lines 63-106):
the name list in input order, the per-node data map, and the role-signature
grouping used by role-sorted display. -/
structure NodeWalkState where
  names : List String := []
  data : String → Option NodeCapacityData := emptyMap
  byRole : List (String × List String) := []

/-- The fresh per-node record built inside the node loop of `node.go`:
readiness, schedulability, the classified role set, and capacity/allocatable
quantities added onto the zero record. -/
def nodeEntry (n : Node) : NodeCapacityData :=
  { Ready := nodeReady n
    Schedulable := !n.unschedulable
    Roles := rolesOf n.labels
    TotalCapacityPods := n.capacityPods
    TotalCapacityCPU := n.capacityCPU
    TotalCapacityMemory := n.capacityMemory
    TotalCapacityEphemeralStorage := n.capacityEphemeralStorage
    TotalAllocatablePods := n.allocatablePods
    TotalAllocatableCPU := n.allocatableCPU
    TotalAllocatableMemory := n.allocatableMemory
    TotalAllocatableEphemeralStorage := n.allocatableEphemeralStorage }

/-- The node walk of `node.go`: record the name, store the fresh record, and
append the node to its role-signature group. -/
def nodeWalk (nodes : List Node) : NodeWalkState :=
  nodes.foldl
    (fun st n =>
      { names := st.names ++ [n.name]
        data := updMap st.data n.name (nodeEntry n)
        byRole := alAppend st.byRole (roleSig (rolesOf n.labels)) n.name })
    {}

/-- The bucket key a pod is charged to in the node grouping. -/
def podKeyOf (p : Pod) : String := if p.nodeName = "" then unassignedKey else p.nodeName

/-- Per-pod accumulation of `node.go` (lines 115-127): total count always,
and, for non-terminal pods, the non-terminal count and every container's
requests and limits. -/
def contAddD (a : NodeCapacityData) (c : ContainerResources) : NodeCapacityData :=
  { a with
    TotalRequestsCPU := a.TotalRequestsCPU + reqCPU c
    TotalLimitsCPU := a.TotalLimitsCPU + limCPU c
    TotalRequestsMemory := a.TotalRequestsMemory + reqMem c
    TotalLimitsMemory := a.TotalLimitsMemory + limMem c
    TotalRequestsEphemeralStorage := a.TotalRequestsEphemeralStorage + reqEph c
    TotalLimitsEphemeralStorage := a.TotalLimitsEphemeralStorage + limEph c }

def podAdd (d : NodeCapacityData) (p : Pod) : NodeCapacityData :=
  let d := { d with TotalPodCount := d.TotalPodCount + 1 }
  if nonTerminal p then
    let d := { d with TotalNonTermPodCount := d.TotalNonTermPodCount + 1 }
    p.containers.foldl contAddD d
  else d

/-- The pod walk of `node.go` (lines 110-128). A pod whose bucket key is not
in the map makes Go dereference a nil `*NodeCapacityData`: a runtime panic,
modelled as `Except.error`. -/
def podWalk (m : String → Option NodeCapacityData) (pods : List Pod) :
    Except Unit (String → Option NodeCapacityData) :=
  match pods with
  | [] => .ok m
  | p :: rest =>
    match m (podKeyOf p) with
    | none => .error ()
    | some d => podWalk (updMap m (podKeyOf p) (podAdd d p)) rest

/-- The derived available fields of a per-node record (`node.go` lines 130-138). -/
def setAvail (d : NodeCapacityData) : NodeCapacityData :=
  { d with
    TotalAvailablePods := d.TotalAllocatablePods - d.TotalNonTermPodCount
    TotalAvailableCPU := d.TotalAllocatableCPU - d.TotalRequestsCPU
    TotalAvailableMemory := d.TotalAllocatableMemory - d.TotalRequestsMemory
    TotalAvailableEphemeralStorage :=
      d.TotalAllocatableEphemeralStorage - d.TotalRequestsEphemeralStorage }

/-- The finalize loop over the (real) node names. All visited keys were
inserted during the node walk, so the `getD` default is never read. -/
def availPhase (m : String → Option NodeCapacityData) (names : List String) :
    String → Option NodeCapacityData :=
  names.foldl (fun m n => updMap m n (setAvail ((m n).getD {}))) m

/-- The human-readable projections of a per-node record (`node.go` lines 156-170). -/
def withReadable (d : NodeCapacityData) : NodeCapacityData :=
  { d with
    TotalCapacityCPUCores := ReadableCPU d.TotalCapacityCPU
    TotalCapacityMemoryGiB := ReadableMem d.TotalCapacityMemory
    TotalCapacityEphemeralStorageGB := ReadableStorage d.TotalCapacityEphemeralStorage
    TotalAllocatableCPUCores := ReadableCPU d.TotalAllocatableCPU
    TotalAllocatableMemoryGiB := ReadableMem d.TotalAllocatableMemory
    TotalAllocatableEphemeralStorageGB := ReadableStorage d.TotalAllocatableEphemeralStorage
    TotalRequestsCPUCores := ReadableCPU d.TotalRequestsCPU
    TotalLimitsCPUCores := ReadableCPU d.TotalLimitsCPU
    TotalAvailableCPUCores := ReadableCPU d.TotalAvailableCPU
    TotalRequestsMemoryGiB := ReadableMem d.TotalRequestsMemory
    TotalLimitsMemoryGiB := ReadableMem d.TotalLimitsMemory
    TotalAvailableMemoryGiB := ReadableMem d.TotalAvailableMemory
    TotalRequestsEphemeralStorageGB := ReadableStorage d.TotalRequestsEphemeralStorage
    TotalLimitsEphemeralStorageGB := ReadableStorage d.TotalLimitsEphemeralStorage
    TotalAvailableEphemeralStorageGB := ReadableStorage d.TotalAvailableEphemeralStorage }

/-- The field-by-field accumulation into the `*total*` record
(`node.go` lines 171-205). -/
def addTot (t d : NodeCapacityData) : NodeCapacityData :=
  { t with
    TotalPodCount := t.TotalPodCount + d.TotalPodCount
    TotalNonTermPodCount := t.TotalNonTermPodCount + d.TotalNonTermPodCount
    TotalCapacityPods := t.TotalCapacityPods + d.TotalCapacityPods
    TotalCapacityCPU := t.TotalCapacityCPU + d.TotalCapacityCPU
    TotalCapacityCPUCores := t.TotalCapacityCPUCores + d.TotalCapacityCPUCores
    TotalCapacityMemory := t.TotalCapacityMemory + d.TotalCapacityMemory
    TotalCapacityMemoryGiB := t.TotalCapacityMemoryGiB + d.TotalCapacityMemoryGiB
    TotalCapacityEphemeralStorage :=
      t.TotalCapacityEphemeralStorage + d.TotalCapacityEphemeralStorage
    TotalCapacityEphemeralStorageGB :=
      t.TotalCapacityEphemeralStorageGB + d.TotalCapacityEphemeralStorageGB
    TotalAllocatablePods := t.TotalAllocatablePods + d.TotalAllocatablePods
    TotalAllocatableCPU := t.TotalAllocatableCPU + d.TotalAllocatableCPU
    TotalAllocatableCPUCores := t.TotalAllocatableCPUCores + d.TotalAllocatableCPUCores
    TotalAllocatableMemory := t.TotalAllocatableMemory + d.TotalAllocatableMemory
    TotalAllocatableMemoryGiB := t.TotalAllocatableMemoryGiB + d.TotalAllocatableMemoryGiB
    TotalAllocatableEphemeralStorage :=
      t.TotalAllocatableEphemeralStorage + d.TotalAllocatableEphemeralStorage
    TotalAllocatableEphemeralStorageGB :=
      t.TotalAllocatableEphemeralStorageGB + d.TotalAllocatableEphemeralStorageGB
    TotalAvailablePods := t.TotalAvailablePods + d.TotalAvailablePods
    TotalRequestsCPU := t.TotalRequestsCPU + d.TotalRequestsCPU
    TotalRequestsCPUCores := t.TotalRequestsCPUCores + d.TotalRequestsCPUCores
    TotalLimitsCPU := t.TotalLimitsCPU + d.TotalLimitsCPU
    TotalLimitsCPUCores := t.TotalLimitsCPUCores + d.TotalLimitsCPUCores
    TotalAvailableCPU := t.TotalAvailableCPU + d.TotalAvailableCPU
    TotalAvailableCPUCores := t.TotalAvailableCPUCores + d.TotalAvailableCPUCores
    TotalRequestsMemory := t.TotalRequestsMemory + d.TotalRequestsMemory
    TotalRequestsMemoryGiB := t.TotalRequestsMemoryGiB + d.TotalRequestsMemoryGiB
    TotalLimitsMemory := t.TotalLimitsMemory + d.TotalLimitsMemory
    TotalLimitsMemoryGiB := t.TotalLimitsMemoryGiB + d.TotalLimitsMemoryGiB
    TotalAvailableMemory := t.TotalAvailableMemory + d.TotalAvailableMemory
    TotalAvailableMemoryGiB := t.TotalAvailableMemoryGiB + d.TotalAvailableMemoryGiB
    TotalRequestsEphemeralStorage :=
      t.TotalRequestsEphemeralStorage + d.TotalRequestsEphemeralStorage
    TotalRequestsEphemeralStorageGB :=
      t.TotalRequestsEphemeralStorageGB + d.TotalRequestsEphemeralStorageGB
    TotalLimitsEphemeralStorage :=
      t.TotalLimitsEphemeralStorage + d.TotalLimitsEphemeralStorage
    TotalLimitsEphemeralStorageGB :=
      t.TotalLimitsEphemeralStorageGB + d.TotalLimitsEphemeralStorageGB
    TotalAvailableEphemeralStorage :=
      t.TotalAvailableEphemeralStorage + d.TotalAvailableEphemeralStorage
    TotalAvailableEphemeralStorageGB :=
      t.TotalAvailableEphemeralStorageGB + d.TotalAvailableEphemeralStorageGB }

/-- The readable-projection and `*total*` accumulation loop of `node.go`
(lines 155-206): each displayed bucket gets its readable fields and is then
added field by field into the `*total*` record. -/
def totalPhase (m : String → Option NodeCapacityData) (names : List String) :
    String → Option NodeCapacityData :=
  names.foldl
    (fun m n =>
      let d := withReadable ((m n).getD {})
      let m := updMap m n d
      updMap m grandTotalKey (addTot ((m grandTotalKey).getD {}) d))
    m

/-- The finalized output of the node grouping. -/
structure NodeAggResult where
  names : List String
  data : String → Option NodeCapacityData
  byRole : List (String × List String)

/-- The full node-grouping aggregation of `cmd/capacity/node.go`, phased as the
source: node walk; synthetic bucket creation; pod walk (may panic); available
fields for the real nodes only; name sort; optional unassigned row; readable
projection and total accumulation; optional total row. -/
def nodeCapacityAgg (nodes : List Node) (pods : List Pod)
    (displayUnassigned displayTotal : Bool) : Except Unit NodeAggResult :=
  let st := nodeWalk nodes
  let m := updMap (updMap st.data unassignedKey {}) grandTotalKey {}
  match podWalk m pods with
  | .error e => .error e
  | .ok m =>
    let m := availPhase m st.names
    let names := List.insertionSort strLe st.names
    let names := if displayUnassigned then names ++ [unassignedKey] else names
    let byRole := if displayUnassigned then alAppend st.byRole tildeKey unassignedKey else st.byRole
    let m := totalPhase m names
    let names := if displayTotal then names ++ [grandTotalKey] else names
    let byRole := if displayTotal then alAppend byRole tildeKey grandTotalKey else byRole
    .ok ⟨names, m, byRole⟩

/-- The default result used to make the panic case inspectable. -/
def emptyNodeAgg : NodeAggResult := ⟨[], emptyMap, []⟩

/-- Total projection of the node aggregation. -/
def nodeAggOut (nodes : List Node) (pods : List Pod) (u t : Bool) : NodeAggResult :=
  match nodeCapacityAgg nodes pods u t with
  | .ok r => r
  | .error _ => emptyNodeAgg

/-- Row order produced by `output.DisplayNodeData`: the sorted-name list by
default; in role-sorted mode the groups of `nodesByRole`, group keys in sorted
order, each group in its stored order. -/
def displayNodeOrder (r : NodeAggResult) (sortByRole : Bool) : List String :=
  if sortByRole then
    ((List.insertionSort strLe (r.byRole.map Prod.fst)).map
      (fun k => alGet r.byRole k)).flatten
  else r.names

/-- State built by the node phase of the node-role walker (`part_006`,
`cmd/capacity/node-role.go` lines 62-105): role names in discovery order, the
per-role data map, and the node-name to role-list map used by the pod phase. -/
structure RoleAggState where
  roleNames : List String := []
  data : String → Option ClusterCapacityData := emptyMap
  nodeRoles : String → Option (List String) := emptyMap

/-- Per-role accumulation of one node (`part_006` lines 86-102): tallies and
the node's full capacity/allocatable quantities. -/
def roleNodeAdd (d : ClusterCapacityData) (n : Node) : ClusterCapacityData :=
  { d with
    TotalNodeCount := d.TotalNodeCount + 1
    TotalReadyNodeCount := d.TotalReadyNodeCount + readyCondCount n
    TotalUnschedulableNodeCount :=
      d.TotalUnschedulableNodeCount + (if n.unschedulable then 1 else 0)
    TotalCapacityPods := d.TotalCapacityPods + n.capacityPods
    TotalCapacityCPU := d.TotalCapacityCPU + n.capacityCPU
    TotalCapacityMemory := d.TotalCapacityMemory + n.capacityMemory
    TotalCapacityEphemeralStorage :=
      d.TotalCapacityEphemeralStorage + n.capacityEphemeralStorage
    TotalAllocatablePods := d.TotalAllocatablePods + n.allocatablePods
    TotalAllocatableCPU := d.TotalAllocatableCPU + n.allocatableCPU
    TotalAllocatableMemory := d.TotalAllocatableMemory + n.allocatableMemory
    TotalAllocatableEphemeralStorage :=
      d.TotalAllocatableEphemeralStorage + n.allocatableEphemeralStorage }

/-- One role of one node in the node phase of the node-role walker: create the
bucket on first touch, then add the node's full contribution. -/
def roleStep (n : Node) (st : RoleAggState) (r : String) : RoleAggState :=
  let st :=
    if r ∈ st.roleNames then st
    else { st with roleNames := st.roleNames ++ [r], data := updMap st.data r {} }
  { st with data := updMap st.data r (roleNodeAdd ((st.data r).getD {}) n) }

/-- One node in the node phase of the node-role walker. -/
def roleNodeStep (st : RoleAggState) (n : Node) : RoleAggState :=
  let roles := rolesOf n.labels
  let st := roles.foldl (roleStep n) st
  { st with nodeRoles := updMap st.nodeRoles n.name roles }

/-- The node phase of the node-role walker: classify each node and add its
full contribution to every one of its role buckets, creating buckets on first
touch; finally record the node's role list. -/
def roleNodePhase (nodes : List Node) : RoleAggState :=
  nodes.foldl roleNodeStep {}

/-- Per-role accumulation of one pod (`part_006` lines 116-127). -/
def rolePodAdd (d : ClusterCapacityData) (p : Pod) : ClusterCapacityData :=
  let d := { d with TotalPodCount := d.TotalPodCount + 1 }
  if nonTerminal p then
    let d := { d with TotalNonTermPodCount := d.TotalNonTermPodCount + 1 }
    p.containers.foldl contAddC d
  else d

/-- One pod in the pod phase of the node-role walker. -/
def rolePodStep (nodeRoles : String → Option (List String))
    (m : String → Option ClusterCapacityData) (p : Pod) :
    String → Option ClusterCapacityData :=
  ((nodeRoles (podKeyOf p)).getD []).foldl
    (fun m r => updMap m r (rolePodAdd ((m r).getD {}) p)) m

/-- The pod phase of the node-role walker (`part_006` lines 110-129): each pod
contributes its full counts and quantities to the bucket of every role of its
node; a pod on an unknown node ranges over a nil role list and is dropped. -/
def rolePodPhase (data : String → Option ClusterCapacityData)
    (nodeRoles : String → Option (List String)) (pods : List Pod) :
    String → Option ClusterCapacityData :=
  pods.foldl (rolePodStep nodeRoles) data

/-- The finalize step of the node-role walker (`part_006` lines 131-140):
unready count and available fields, recomputed from the accumulated fields. -/
def roleFinalize (d : ClusterCapacityData) : ClusterCapacityData :=
  { d with
    TotalUnreadyNodeCount := d.TotalNodeCount - d.TotalReadyNodeCount
    TotalAvailablePods := d.TotalAllocatablePods - d.TotalNonTermPodCount
    TotalAvailableCPU := d.TotalAllocatableCPU - d.TotalRequestsCPU
    TotalAvailableMemory := d.TotalAllocatableMemory - d.TotalRequestsMemory
    TotalAvailableEphemeralStorage :=
      d.TotalAllocatableEphemeralStorage - d.TotalRequestsEphemeralStorage }

/-- The human-readable projections of a role bucket (`part_006` lines 156-172). -/
def roleReadable (d : ClusterCapacityData) : ClusterCapacityData :=
  { d with
    TotalCapacityCPUCores := ReadableCPU d.TotalCapacityCPU
    TotalCapacityMemoryGiB := ReadableMem d.TotalCapacityMemory
    TotalCapacityEphemeralStorageGB := ReadableStorage d.TotalCapacityEphemeralStorage
    TotalAllocatableCPUCores := ReadableCPU d.TotalAllocatableCPU
    TotalAllocatableMemoryGiB := ReadableMem d.TotalAllocatableMemory
    TotalAllocatableEphemeralStorageGB := ReadableStorage d.TotalAllocatableEphemeralStorage
    TotalRequestsCPUCores := ReadableCPU d.TotalRequestsCPU
    TotalLimitsCPUCores := ReadableCPU d.TotalLimitsCPU
    TotalAvailableCPUCores := ReadableCPU d.TotalAvailableCPU
    TotalRequestsMemoryGiB := ReadableMem d.TotalRequestsMemory
    TotalLimitsMemoryGiB := ReadableMem d.TotalLimitsMemory
    TotalAvailableMemoryGiB := ReadableMem d.TotalAvailableMemory
    TotalRequestsEphemeralStorageGB := ReadableStorage d.TotalRequestsEphemeralStorage
    TotalLimitsEphemeralStorageGB := ReadableStorage d.TotalLimitsEphemeralStorage
    TotalAvailableEphemeralStorageGB := ReadableStorage d.TotalAvailableEphemeralStorage }

/-- The full node-role aggregation of `part_006`: node phase, synthetic
unassigned bucket, pod phase, finalize over the discovered role names, sorted
display names with the optional unassigned row, readable projection over the
displayed names. Returns the displayed role names and the bucket map. -/
def nodeRoleAgg (nodes : List Node) (pods : List Pod) (displayUnassigned : Bool) :
    List String × (String → Option ClusterCapacityData) :=
  let st := roleNodePhase nodes
  let data := updMap st.data unassignedKey {}
  let nodeRoles := updMap st.nodeRoles unassignedKey [unassignedKey]
  let data := rolePodPhase data nodeRoles pods
  let data := st.roleNames.foldl (fun m r => updMap m r (roleFinalize ((m r).getD {}))) data
  let names := List.insertionSort strLe st.roleNames
  let names := if displayUnassigned then names ++ [unassignedKey] else names
  let data := names.foldl (fun m r => updMap m r (roleReadable ((m r).getD {}))) data
  (names, data)

/-- The historical node-role walker of `cmd/node-role.go` (lines 76-170),
kept in the sources: per node, the assigned pod totals are computed and then
either added into an existing role bucket (with the unready count recomputed)
or written into a freshly created bucket whose unready count is only ever
assigned zero. -/
def oldNodeRoleAgg (nodes : List Node) (pods : List Pod) :
    String → Option RoleCapacityData :=
  nodes.foldl
    (fun m n =>
      let roles := rolesOf n.labels
      let nodePods := pods.filter (fun p => p.nodeName == n.name)
      let nonTermPods := nodePods.filter nonTerminal
      let totals := nonTermPods.foldl
        (fun (t : Int × Int × Int × Int) p =>
          p.containers.foldl
            (fun t c => (t.1 + reqCPU c, t.2.1 + limCPU c, t.2.2.1 + reqMem c, t.2.2.2 + limMem c))
            t)
        (0, 0, 0, 0)
      roles.foldl
        (fun m r =>
          match m r with
          | some d =>
            updMap m r
              { d with
                totalNodeCount := d.totalNodeCount + 1
                totalReadyNodeCount := d.totalReadyNodeCount + readyCondCount n
                totalUnreadyNodeCount :=
                  (d.totalNodeCount + 1) - (d.totalReadyNodeCount + readyCondCount n)
                totalUnschedulableNodeCount :=
                  d.totalUnschedulableNodeCount + (if n.unschedulable then 1 else 0)
                totalCapacityPods := d.totalCapacityPods + n.capacityPods
                totalCapacityCPU := d.totalCapacityCPU + n.capacityCPU
                totalCapacityMemory := d.totalCapacityMemory + n.capacityMemory
                totalAllocatablePods := d.totalAllocatablePods + n.allocatablePods
                totalAllocatableCPU := d.totalAllocatableCPU + n.allocatableCPU
                totalAllocatableMemory := d.totalAllocatableMemory + n.allocatableMemory
                totalRequestsCPU := d.totalRequestsCPU + totals.1
                totalLimitsCPU := d.totalLimitsCPU + totals.2.1
                totalRequestsMemory := d.totalRequestsMemory + totals.2.2.1
                totalLimitsMemory := d.totalLimitsMemory + totals.2.2.2
                totalPodCount := d.totalPodCount + (nodePods.length : Int)
                totalNonTermPodCount := d.totalNonTermPodCount + (nonTermPods.length : Int) }
          | none =>
            updMap m r
              { totalNodeCount := 1
                totalReadyNodeCount := if readyCondCount n > 0 then 1 else 0
                totalUnreadyNodeCount := 0
                totalUnschedulableNodeCount := if n.unschedulable then 1 else 0
                totalCapacityPods := n.capacityPods
                totalCapacityCPU := n.capacityCPU
                totalCapacityMemory := n.capacityMemory
                totalAllocatablePods := n.allocatablePods
                totalAllocatableCPU := n.allocatableCPU
                totalAllocatableMemory := n.allocatableMemory
                totalRequestsCPU := totals.1
                totalLimitsCPU := totals.2.1
                totalRequestsMemory := totals.2.2.1
                totalLimitsMemory := totals.2.2.2
                totalPodCount := (nodePods.length : Int)
                totalNonTermPodCount := (nonTermPods.length : Int) })
        m)
    emptyMap

/-- Per-container request/limit addition on a `NamespaceCapacityData` record. -/
def contAddN (a : NamespaceCapacityData) (c : ContainerResources) : NamespaceCapacityData :=
  { a with
    TotalRequestsCPU := a.TotalRequestsCPU + reqCPU c
    TotalLimitsCPU := a.TotalLimitsCPU + limCPU c
    TotalRequestsMemory := a.TotalRequestsMemory + reqMem c
    TotalLimitsMemory := a.TotalLimitsMemory + limMem c
    TotalRequestsEphemeralStorage := a.TotalRequestsEphemeralStorage + reqEph c
    TotalLimitsEphemeralStorage := a.TotalLimitsEphemeralStorage + limEph c }

/-- Modelled from the spec: the namespace-grouping inventory walker is not
present under `src` (only the `NamespaceCapacityData` declaration and the
display consumer with its Unassigned column are). Per spec item 4.3, every
unit increments its namespace's total pod count, a unit with no assigned node
increments the namespace's unassigned-node-pod counter, and a non-terminal
unit additionally increments the non-terminal count and adds every container's
requests and limits. -/
def namespacePodAdd (d : NamespaceCapacityData) (p : Pod) : NamespaceCapacityData :=
  let d := { d with TotalPodCount := d.TotalPodCount + 1 }
  let d :=
    if p.nodeName = "" then
      { d with TotalUnassignedNodePodCount := d.TotalUnassignedNodePodCount + 1 }
    else d
  if nonTerminal p then
    let d := { d with TotalNonTermPodCount := d.TotalNonTermPodCount + 1 }
    p.containers.foldl contAddN d
  else d

/-- Modelled from the spec: the namespace aggregation creates a zero-valued
record for every listed namespace and walks the workload units once,
dispatching each to its namespace's record; units of unlisted namespaces are
ignored. -/
def namespaceAgg (namespaces : List String) (pods : List Pod) :
    String → Option NamespaceCapacityData :=
  let m := namespaces.foldl (fun m ns => updMap m ns {}) emptyMap
  pods.foldl
    (fun m p =>
      match m p.namespaceName with
      | none => m
      | some d => updMap m p.namespaceName (namespacePodAdd d p))
    m

/-- Namespace names displayed by `cmd/capacity/namespace.go`: the listed names
sorted (`sort.Strings`), iterated in order by `DisplayNamespaceData`. -/
def displayNamespaceOrder (namespaces : List String) : List String :=
  List.insertionSort strLe namespaces

theorem updMap_self {β : Type} (m : String → Option β) (k : String) (v : β) :
    updMap m k v k = some v := by
  simp [updMap]

theorem updMap_of_ne {β : Type} (m : String → Option β) (k : String) (v : β)
    (q : String) (h : q ≠ k) : updMap m k v q = m q := by
  simp [updMap, h]

theorem foldl_upd_skip {β : Type} (F : β → β) (d0 : β) :
    ∀ (names : List String) (m : String → Option β) (r : String), r ∉ names →
      names.foldl (fun m n => updMap m n (F ((m n).getD d0))) m r = m r := by
  intro names
  induction names with
  | nil => intro m r _; rfl
  | cons n ns ih =>
    intro m r hr
    have hne : r ≠ n := fun h => hr (h ▸ List.mem_cons_self n ns)
    have hns : r ∉ ns := fun h => hr (List.mem_cons_of_mem n h)
    simp only [List.foldl_cons]
    rw [ih _ r hns, updMap_of_ne _ _ _ _ hne]

theorem foldl_upd_apply {β : Type} (F : β → β) (d0 : β) :
    ∀ (names : List String) (m : String → Option β) (r : String),
      names.Nodup → r ∈ names →
      names.foldl (fun m n => updMap m n (F ((m n).getD d0))) m r =
        some (F ((m r).getD d0)) := by
  intro names
  induction names with
  | nil => intro m r _ hr; exact absurd hr (List.not_mem_nil r)
  | cons n ns ih =>
    intro m r hnd hr
    have hn : n ∉ ns := (List.nodup_cons.mp hnd).1
    have hnd' : ns.Nodup := (List.nodup_cons.mp hnd).2
    simp only [List.foldl_cons]
    rcases List.mem_cons.mp hr with heq | hmem
    · subst heq
      rw [foldl_upd_skip F d0 ns _ r hn, updMap_self]
    · have hne : r ≠ n := fun h => hn (h ▸ hmem)
      rw [ih _ r hnd' hmem, updMap_of_ne _ _ _ _ hne]

/-- C7: the human-readable projections are exactly millicores divided by 1000,
bytes divided by 2^30 (binary) for memory, and bytes divided by 10^9 (decimal)
for ephemeral storage; the memory-versus-storage asymmetry is real: the two
projections disagree on a nonzero quantity. -/
theorem c7_readable_projections (q : Int) :
    ReadableCPU q = (q : ℚ) / 1000 ∧
    ReadableMem q = (q : ℚ) / 2 ^ 30 ∧
    ReadableStorage q = (q : ℚ) / 10 ^ 9 ∧
    ReadableMem 1 ≠ ReadableStorage 1 := by
  refine ⟨rfl, ?_, ?_, by norm_num [ReadableMem, ReadableStorage]⟩
  · unfold ReadableMem
    rw [div_div, div_div]
    norm_num
  · unfold ReadableStorage
    rw [div_div, div_div]
    norm_num


theorem insertRole_mem (s : List String) (r x : String) :
    x ∈ insertRole s r ↔ x ∈ s ∨ x = r := by
  by_cases h : r ∈ s
  · simp only [insertRole, if_pos h]
    constructor
    · exact Or.inl
    · rintro (hx | rfl)
      · exact hx
      · exact h
  · simp [insertRole, if_neg h]

theorem insertRole_nodup (s : List String) (r : String) (h : s.Nodup) :
    (insertRole s r).Nodup := by
  by_cases hr : r ∈ s
  · simpa [insertRole, if_pos hr] using h
  · simp only [insertRole, if_neg hr]
    rw [List.nodup_append]
    refine ⟨h, List.nodup_singleton r, ?_⟩
    intro x hx hx1
    rw [List.mem_singleton] at hx1
    exact hr (hx1 ▸ hx)

theorem string_ne_empty_iff_len (s : String) : s ≠ "" ↔ s.length > 0 := by
  cases s with
  | mk data =>
    cases data with
    | nil => simp [String.length]
    | cons c cs =>
      simp only [String.length, List.length_cons, gt_iff_lt, Nat.succ_pos, iff_true]
      intro h
      exact List.noConfusion (congrArg String.data h)

theorem legacy_not_role_pre : hasPre roleLabelPre legacyRoleKey = false := by decide

/-- The raw (duplicate-carrying) role list described by the spec. -/
def specRawRoles (labels : List (String × String)) : List String :=
  (labels.filterMap fun kv =>
    if hasPre roleLabelPre kv.1 ∧ trimPre roleLabelPre kv.1 ≠ "" then
      some (trimPre roleLabelPre kv.1)
    else none) ++
  (labels.filterMap fun kv =>
    if kv.1 = legacyRoleKey ∧ kv.2 ≠ "" then some kv.2 else none)

theorem specRoleSet_eq_dedup (labels : List (String × String)) :
    specRoleSet labels = (specRawRoles labels).dedup := rfl

theorem specRawRoles_mem (labels : List (String × String)) (x : String) :
    x ∈ specRawRoles labels ↔
      (∃ kv ∈ labels,
        (hasPre roleLabelPre kv.1 = true ∧ trimPre roleLabelPre kv.1 ≠ "") ∧
          x = trimPre roleLabelPre kv.1) ∨
      (∃ kv ∈ labels, (kv.1 = legacyRoleKey ∧ kv.2 ≠ "") ∧ x = kv.2) := by
  simp only [specRawRoles, List.mem_append, List.mem_filterMap]
  constructor
  · rintro (⟨kv, hkv, hf⟩ | ⟨kv, hkv, hf⟩)
    · refine Or.inl ⟨kv, hkv, ?_⟩
      revert hf
      split
      · rename_i hc
        intro hf
        exact ⟨⟨hc.1, hc.2⟩, (Option.some_inj.mp hf).symm⟩
      · intro hf; exact Option.noConfusion hf
    · refine Or.inr ⟨kv, hkv, ?_⟩
      revert hf
      split
      · rename_i hc
        intro hf
        exact ⟨hc, (Option.some_inj.mp hf).symm⟩
      · intro hf; exact Option.noConfusion hf
  · rintro (⟨kv, hkv, ⟨hc, rfl⟩⟩ | ⟨kv, hkv, ⟨hc, rfl⟩⟩)
    · exact Or.inl ⟨kv, hkv, by simp [hc.1, hc.2]⟩
    · exact Or.inr ⟨kv, hkv, by simp [hc.1, hc.2]⟩

theorem specRawRoles_cons_mem (kv : String × String) (rest : List (String × String)) (x : String) :
    x ∈ specRawRoles (kv :: rest) ↔
      (((hasPre roleLabelPre kv.1 = true ∧ trimPre roleLabelPre kv.1 ≠ "") ∧
          x = trimPre roleLabelPre kv.1) ∨
        ((kv.1 = legacyRoleKey ∧ kv.2 ≠ "") ∧ x = kv.2)) ∨
      x ∈ specRawRoles rest := by
  rw [specRawRoles_mem, specRawRoles_mem]
  simp only [List.mem_cons, exists_eq_or_imp]
  exact or_or_or_comm

theorem collectRoles_go_mem (labels : List (String × String)) :
    ∀ (acc : List String) (x : String),
      (x ∈ labels.foldl
          (fun s kv =>
            if hasPre roleLabelPre kv.1 then
              (let role := trimPre roleLabelPre kv.1
               if role.length > 0 then insertRole s role else s)
            else if kv.1 = legacyRoleKey ∧ kv.2 ≠ "" then insertRole s kv.2 else s)
          acc) ↔
        x ∈ acc ∨ x ∈ specRawRoles labels := by
  induction labels with
  | nil => intro acc x; simp [specRawRoles]
  | cons kv rest ih =>
    intro acc x
    simp only [List.foldl_cons]
    rw [ih, specRawRoles_cons_mem]
    cases h1 : hasPre roleLabelPre kv.1 with
    | true =>
      have hleg : kv.1 ≠ legacyRoleKey := by
        intro he
        rw [he, legacy_not_role_pre] at h1
        exact Bool.noConfusion h1
      simp only [reduceIte, eq_self_iff_true, true_and]
      by_cases h2 : (trimPre roleLabelPre kv.1).length > 0
      · have hne : trimPre roleLabelPre kv.1 ≠ "" := (string_ne_empty_iff_len _).mpr h2
        simp only [if_pos h2, insertRole_mem]
        tauto
      · have hne : ¬ trimPre roleLabelPre kv.1 ≠ "" :=
          fun hc => h2 ((string_ne_empty_iff_len _).mp hc)
        simp only [if_neg h2]
        tauto
    | false =>
      simp only [Bool.false_eq_true, if_false, false_and, false_or]
      by_cases h2 : kv.1 = legacyRoleKey ∧ kv.2 ≠ ""
      · simp only [if_pos h2, insertRole_mem]
        tauto
      · simp only [if_neg h2]
        tauto

theorem collectRoles_mem (labels : List (String × String)) (x : String) :
    x ∈ collectRoles labels ↔ x ∈ specRawRoles labels := by
  have h := collectRoles_go_mem labels [] x
  simpa [collectRoles] using h

theorem collectRoles_go_nodup (labels : List (String × String)) :
    ∀ (acc : List String), acc.Nodup →
      (labels.foldl
          (fun s kv =>
            if hasPre roleLabelPre kv.1 then
              (let role := trimPre roleLabelPre kv.1
               if role.length > 0 then insertRole s role else s)
            else if kv.1 = legacyRoleKey ∧ kv.2 ≠ "" then insertRole s kv.2 else s)
          acc).Nodup := by
  induction labels with
  | nil => intro acc h; exact h
  | cons kv rest ih =>
    intro acc h
    simp only [List.foldl_cons]
    apply ih
    cases h1 : hasPre roleLabelPre kv.1 with
    | true =>
      by_cases h2 : (trimPre roleLabelPre kv.1).length > 0
      · simpa [h1, h2] using insertRole_nodup _ _ h
      · simpa [h1, h2] using h
    | false =>
      by_cases h2 : kv.1 = legacyRoleKey ∧ kv.2 ≠ ""
      · simpa [h1, h2] using insertRole_nodup _ _ h
      · simpa [h1, h2] using h

theorem collectRoles_nodup (labels : List (String × String)) : (collectRoles labels).Nodup :=
  collectRoles_go_nodup labels [] List.nodup_nil

theorem rolesOf_nodup (labels : List (String × String)) : (rolesOf labels).Nodup := by
  have base : (if collectRoles labels = [] then [noneRoleName] else collectRoles labels).Nodup := by
    by_cases h : collectRoles labels = []
    · simp [h]
    · simpa [h] using collectRoles_nodup labels
  have hp := (List.perm_insertionSort strLe
    (if collectRoles labels = [] then [noneRoleName] else collectRoles labels)).symm
  exact hp.nodup base

/-- C5: the role classifier returns exactly the de-duplicated,
lexicographically ordered set containing the non-empty suffix of every label
key with the reserved role prefix together with the non-empty value of the
legacy role key; when that set is empty it returns the `<none>` sentinel;
malformed labels (empty suffix, empty legacy value) are ignored and never
cause an error. -/
theorem c5_role_classifier_spec (labels : List (String × String)) :
    rolesOf labels =
      if specRoleSet labels = [] then [noneRoleName]
      else List.insertionSort strLe (specRoleSet labels) := by
  have hmem : ∀ x, x ∈ collectRoles labels ↔ x ∈ specRoleSet labels := by
    intro x
    rw [collectRoles_mem, specRoleSet_eq_dedup, List.mem_dedup]
  have hnodupC := collectRoles_nodup labels
  have hnodupS : (specRoleSet labels).Nodup := by
    rw [specRoleSet_eq_dedup]; exact List.nodup_dedup _
  by_cases hc : collectRoles labels = []
  · have hs : specRoleSet labels = [] := by
      apply List.eq_nil_iff_forall_not_mem.mpr
      intro x hx
      exact (List.eq_nil_iff_forall_not_mem.mp hc x) ((hmem x).mpr hx)
    rw [if_pos hs]
    simp [rolesOf, hc]
  · have hs : specRoleSet labels ≠ [] := by
      intro hnil
      apply hc
      apply List.eq_nil_iff_forall_not_mem.mpr
      intro x hx
      exact (List.eq_nil_iff_forall_not_mem.mp hnil x) ((hmem x).mp hx)
    rw [if_neg hs]
    have hperm : List.Perm (collectRoles labels) (specRoleSet labels) :=
      (List.perm_ext_iff_of_nodup hnodupC hnodupS).mpr hmem
    have h1 : List.Perm (List.insertionSort strLe (collectRoles labels))
        (List.insertionSort strLe (specRoleSet labels)) :=
      ((List.perm_insertionSort strLe _).trans hperm).trans
        (List.perm_insertionSort strLe _).symm
    have h2 := List.eq_of_perm_of_sorted h1
      (List.sorted_insertionSort strLe _) (List.sorted_insertionSort strLe _)
    simpa [rolesOf, hc] using h2

/-- Role name used by the concrete inputs below. -/
def workerRole : String := "worker"

/-- A node classified as worker that carries no Ready condition. -/
def unreadyWorkerNode : Node :=
  { name := "n1", labels := [(roleLabelPre ++ workerRole, "")] }

/-- The role bucket the historical node-role walker builds for that node. -/
def unreadyWorkerBucket : RoleCapacityData :=
  { totalNodeCount := 1, totalReadyNodeCount := 0, totalUnreadyNodeCount := 0 }

/-- C2: the historical node-role walker of `cmd/node-role.go`, on a snapshot
whose only node carries the worker role and is not Ready, reports
`totalNodeCount = 1` with `totalReadyNodeCount = 0` and
`totalUnreadyNodeCount = 0`: the invariant
`totalNodeCount = totalReadyNodeCount + totalUnreadyNodeCount` fails for a
role bucket whose first and only classified node is not Ready, because the
bucket-creation branch never recomputes the unready count. -/
theorem c2_unready_invariant_code_bug :
    (oldNodeRoleAgg [unreadyWorkerNode] []) workerRole = some unreadyWorkerBucket ∧
    unreadyWorkerBucket.totalNodeCount = 1 ∧
    unreadyWorkerBucket.totalReadyNodeCount = 0 ∧
    unreadyWorkerBucket.totalUnreadyNodeCount = 0 ∧
    unreadyWorkerBucket.totalNodeCount ≠
      unreadyWorkerBucket.totalReadyNodeCount + unreadyWorkerBucket.totalUnreadyNodeCount := by
  refine ⟨by decide, by decide, by decide, by decide, by decide⟩

/-- A pod assigned to a node name that is not in the node collection. -/
def ghostNodePod : Pod :=
  { namespaceName := "ns-a", nodeName := "ghost", phase := "Running" }

/-- A pod with no assigned node and no request or limit entries. -/
def bareUnassignedPod : Pod :=
  { namespaceName := "ns-a", nodeName := "", phase := "Pending", containers := [{}] }

/-- C6: the pod walk of the node grouping is not total: on a pod whose assigned
node name does not match any node, the walker dereferences a nil accumulator
pointer (a runtime panic, modelled as the error case), while a pod with
missing request and limit quantity fields is processed without failure, its
quantities treated as zero. -/
theorem c6_walk_panics_on_unknown_node :
    (nodeCapacityAgg [] [ghostNodePod] false false).isOk = false ∧
    (nodeCapacityAgg [] [bareUnassignedPod] false false).isOk = true ∧
    (((nodeAggOut [] [bareUnassignedPod] false false).data unassignedKey).getD
        {}).TotalRequestsCPU = 0 ∧
    (((nodeAggOut [] [bareUnassignedPod] false false).data unassignedKey).getD
        {}).TotalPodCount = 1 := by
  refine ⟨by decide, by decide, by decide, by decide⟩

/-- A non-terminal unassigned pod with a 100-millicore CPU request. -/
def requestingUnassignedPod : Pod :=
  { namespaceName := "ns-a", nodeName := "", phase := "Pending",
    containers := [{ requestsCPU := some 100 }] }

/-- The finalized `*unassigned*` bucket of the node grouping on a snapshot with
no nodes and that one pod. -/
def c1UnassignedBucket : NodeCapacityData :=
  ((nodeAggOut [] [requestingUnassignedPod] true false).data unassignedKey).getD {}

/-- C1: counterexample. In the node grouping with the unassigned row
requested, the `*unassigned*` bucket accumulates a 100-millicore CPU request
and one non-terminal pod, yet every available field stays zero: available is
not allocatable minus requested on the synthetic `*unassigned*` bucket
(0 ≠ 0 − 100), and available pods is not allocatable pods minus the
non-terminal pod count. -/
theorem c1_available_counterexample :
    c1UnassignedBucket.TotalRequestsCPU = 100 ∧
    c1UnassignedBucket.TotalNonTermPodCount = 1 ∧
    c1UnassignedBucket.TotalAvailableCPU = 0 ∧
    c1UnassignedBucket.TotalAllocatableCPU - c1UnassignedBucket.TotalRequestsCPU = -100 ∧
    c1UnassignedBucket.TotalAvailableCPU ≠
      c1UnassignedBucket.TotalAllocatableCPU - c1UnassignedBucket.TotalRequestsCPU ∧
    c1UnassignedBucket.TotalAvailablePods ≠
      c1UnassignedBucket.TotalAllocatablePods - c1UnassignedBucket.TotalNonTermPodCount := by
  refine ⟨by decide, by decide, by decide, by decide, by decide, by decide⟩

/-- Two role-less nodes whose input order is not lexicographic. -/
def outOfOrderNodeB : Node := { name := "b-node" }

/-- Two role-less nodes whose input order is not lexicographic. -/
def outOfOrderNodeA : Node := { name := "a-node" }

/-- C9: counterexample. In the sort-by-role mode, the two nodes share the
role-list signature `<none>`, yet the displayed order within that signature
group is the input order `b-node, a-node`, not lexicographic order. -/
theorem c9_ordering_counterexample :
    displayNodeOrder (nodeAggOut [outOfOrderNodeB, outOfOrderNodeA] [] false false) true =
      ["b-node", "a-node"] ∧
    ¬ List.Sorted strLe ["b-node", "a-node"] := by
  refine ⟨by decide, by decide⟩

theorem foldl_proj_const {α β γ : Type} (step : β → α → β) (f : β → γ)
    (hf : ∀ b a, f (step b a) = f b) :
    ∀ (l : List α) (b : β), f (l.foldl step b) = f b := by
  intro l
  induction l with
  | nil => intro b; rfl
  | cons a l ih => intro b; rw [List.foldl_cons, ih, hf]

theorem foldl_proj_add {α β : Type} (step : β → α → β) (f : β → Int) (g : α → Int)
    (hf : ∀ b a, f (step b a) = f b + g a) :
    ∀ (l : List α) (b : β), f (l.foldl step b) = f b + (l.map g).sum := by
  intro l
  induction l with
  | nil => intro b; simp
  | cons a l ih =>
    intro b
    rw [List.foldl_cons, ih, hf, List.map_cons, List.sum_cons, add_assoc]

theorem foldl_proj_add_rat {α β : Type} (step : β → α → β) (f : β → ℚ) (g : α → ℚ)
    (hf : ∀ b a, f (step b a) = f b + g a) :
    ∀ (l : List α) (b : β), f (l.foldl step b) = f b + (l.map g).sum := by
  intro l
  induction l with
  | nil => intro b; simp
  | cons a l ih =>
    intro b
    rw [List.foldl_cons, ih, hf, List.map_cons, List.sum_cons, add_assoc]

theorem sum_ones_eq_length {α : Type} (l : List α) :
    (l.map (fun _ => (1 : Int))).sum = (l.length : Int) := by
  induction l with
  | nil => simp
  | cons a l ih => simp [ih]; ring

theorem sum_ite_eq_filter_length {α : Type} (q : α → Bool) (l : List α) :
    (l.map (fun a => if q a = true then (1 : Int) else 0)).sum =
      ((l.filter q).length : Int) := by
  induction l with
  | nil => simp
  | cons a l ih =>
    cases h : q a <;> simp [List.filter_cons, h, ih] <;> ring

theorem sum_ite_eq_filter_sum {α : Type} (q : α → Bool) (g : α → Int) (l : List α) :
    (l.map (fun a => if q a = true then g a else 0)).sum = ((l.filter q).map g).sum := by
  induction l with
  | nil => simp
  | cons a l ih =>
    cases h : q a <;> simp [List.filter_cons, h, ih]

theorem nsInitFold_not_mem :
    ∀ (nss : List String) (m : String → Option NamespaceCapacityData) (q : String),
      q ∉ nss → (nss.foldl (fun m ns => updMap m ns {}) m) q = m q := by
  intro nss
  induction nss with
  | nil => intro m q _; rfl
  | cons n rest ih =>
    intro m q hq
    have hne : q ≠ n := fun h => hq (h ▸ List.mem_cons_self n rest)
    have hrest : q ∉ rest := fun h => hq (List.mem_cons_of_mem n h)
    simp only [List.foldl_cons]
    rw [ih _ q hrest, updMap_of_ne _ _ _ _ hne]

theorem nsInitFold_mem :
    ∀ (nss : List String) (m : String → Option NamespaceCapacityData) (q : String),
      q ∈ nss → (nss.foldl (fun m ns => updMap m ns {}) m) q = some {} := by
  intro nss
  induction nss with
  | nil => intro m q hq; exact absurd hq (List.not_mem_nil q)
  | cons n rest ih =>
    intro m q hq
    simp only [List.foldl_cons]
    by_cases hr : q ∈ rest
    · exact ih _ q hr
    · have hqn : q = n := by
        rcases List.mem_cons.mp hq with h | h
        · exact h
        · exact absurd h hr
      rw [nsInitFold_not_mem rest _ q hr, hqn, updMap_self]

theorem nsPodFold (pods : List Pod) :
    ∀ (m : String → Option NamespaceCapacityData) (ns : String) (d : NamespaceCapacityData),
      m ns = some d →
      (pods.foldl
          (fun m p =>
            match m p.namespaceName with
            | none => m
            | some d => updMap m p.namespaceName (namespacePodAdd d p))
          m) ns =
        some ((pods.filter (fun p => p.namespaceName == ns)).foldl namespacePodAdd d) := by
  induction pods with
  | nil => intro m ns d hm; simpa using hm
  | cons p rest ih =>
    intro m ns d hm
    simp only [List.foldl_cons, List.filter_cons]
    by_cases hp : p.namespaceName = ns
    · have hlook : m p.namespaceName = some d := by rw [hp]; exact hm
      have hbeq : (p.namespaceName == ns) = true := by simp [hp]
      simp only [hlook, hbeq, if_true, List.foldl_cons, reduceIte]
      exact ih _ ns (namespacePodAdd d p) (by rw [hp, updMap_self])
    · have hbeq : (p.namespaceName == ns) = false := by simp [hp]
      rw [hbeq]
      have hpre : ∀ m2 : String → Option NamespaceCapacityData,
          m2 ns = some d →
          (match m2 p.namespaceName with
            | none => m2
            | some d => updMap m2 p.namespaceName (namespacePodAdd d p)) ns = some d := by
        intro m2 hm2
        cases hlook : m2 p.namespaceName with
        | none => simpa using hm2
        | some d2 =>
          simp only []
          rw [updMap_of_ne _ _ _ _ (fun h => hp h.symm)]
          exact hm2
      exact ih _ ns d (hpre m hm)

theorem namespacePodAdd_podCount (d : NamespaceCapacityData) (p : Pod) :
    (namespacePodAdd d p).TotalPodCount = d.TotalPodCount + 1 := by
  unfold namespacePodAdd
  have hc : ∀ (cs : List ContainerResources) (a : NamespaceCapacityData),
      (cs.foldl contAddN a).TotalPodCount = a.TotalPodCount :=
    fun cs a => foldl_proj_const contAddN (fun d => d.TotalPodCount) (fun _ _ => rfl) cs a
  by_cases h1 : p.nodeName = "" <;> by_cases h2 : nonTerminal p <;> simp [h1, h2, hc]

theorem namespacePodAdd_unassigned (d : NamespaceCapacityData) (p : Pod) :
    (namespacePodAdd d p).TotalUnassignedNodePodCount =
      d.TotalUnassignedNodePodCount + (if (p.nodeName == "") = true then (1 : Int) else 0) := by
  unfold namespacePodAdd
  have hc : ∀ (cs : List ContainerResources) (a : NamespaceCapacityData),
      (cs.foldl contAddN a).TotalUnassignedNodePodCount = a.TotalUnassignedNodePodCount :=
    fun cs a =>
      foldl_proj_const contAddN (fun d => d.TotalUnassignedNodePodCount) (fun _ _ => rfl) cs a
  by_cases h1 : p.nodeName = "" <;> by_cases h2 : nonTerminal p <;> simp [h1, h2, hc]

/-- C8: for a namespace with exactly two pods of which exactly one has no
assigned node, the (spec-modelled) namespace aggregation reports
`TotalPodCount = 2` and `TotalUnassignedNodePodCount = 1`: every pod with an
empty assigned-node name increments its namespace's unassigned counter. -/
theorem c8_namespace_unassigned_count (nss : List String) (pods : List Pod) (ns : String)
    (hns : ns ∈ nss)
    (h2 : ((pods.filter (fun p => p.namespaceName == ns)).length : Int) = 2)
    (h1 : (((pods.filter (fun p => p.namespaceName == ns)).filter
        (fun p => p.nodeName == "")).length : Int) = 1) :
    ∃ d, namespaceAgg nss pods ns = some d ∧
      d.TotalPodCount = 2 ∧ d.TotalUnassignedNodePodCount = 1 := by
  have hinit : (nss.foldl (fun m ns => updMap m ns ({} : NamespaceCapacityData)) emptyMap) ns =
      some ({} : NamespaceCapacityData) :=
    nsInitFold_mem nss emptyMap ns hns
  have hfold := nsPodFold pods _ ns ({} : NamespaceCapacityData) hinit
  refine ⟨_, hfold, ?_, ?_⟩
  · have := foldl_proj_add namespacePodAdd (fun d => d.TotalPodCount) (fun _ => 1)
      (fun d p => namespacePodAdd_podCount d p)
      (pods.filter (fun p => p.namespaceName == ns)) {}
    rw [this, sum_ones_eq_length]
    simpa using h2
  · have := foldl_proj_add namespacePodAdd (fun d => d.TotalUnassignedNodePodCount)
      (fun p => if (p.nodeName == "") = true then (1 : Int) else 0)
      (fun d p => namespacePodAdd_unassigned d p)
      (pods.filter (fun p => p.namespaceName == ns)) {}
    rw [this, sum_ite_eq_filter_length]
    simpa using h1

/-- A pod of namespace ns-a with no assigned node. -/
def nsScenarioPodU : Pod := { namespaceName := "ns-a", nodeName := "", phase := "Running" }

/-- A pod of namespace ns-a assigned to node n1. -/
def nsScenarioPodA : Pod := { namespaceName := "ns-a", nodeName := "n1", phase := "Running" }

/-- Witness for C8 at the concrete two-pod scenario. -/
theorem c8_namespace_unassigned_count_witness :
    ∃ d, namespaceAgg ["ns-a"] [nsScenarioPodU, nsScenarioPodA] "ns-a" = some d ∧
      d.TotalPodCount = 2 ∧ d.TotalUnassignedNodePodCount = 1 :=
  c8_namespace_unassigned_count ["ns-a"] [nsScenarioPodU, nsScenarioPodA] "ns-a"
    (by decide) (by decide) (by decide)

theorem nodeWalk_go_names (nodes : List Node) :
    ∀ (st : NodeWalkState),
      (nodes.foldl
          (fun st n =>
            { names := st.names ++ [n.name]
              data := updMap st.data n.name (nodeEntry n)
              byRole := alAppend st.byRole (roleSig (rolesOf n.labels)) n.name }) st).names =
        st.names ++ nodes.map Node.name := by
  induction nodes with
  | nil => intro st; simp
  | cons n rest ih => intro st; simp [ih]

theorem nodeWalk_names (nodes : List Node) :
    (nodeWalk nodes).names = nodes.map Node.name := by
  have h := nodeWalk_go_names nodes {}
  simpa [nodeWalk] using h

theorem nodeWalk_go_isSome (nodes : List Node) (q : String) :
    ∀ (st : NodeWalkState),
      ((nodes.foldl
          (fun st n =>
            { names := st.names ++ [n.name]
              data := updMap st.data n.name (nodeEntry n)
              byRole := alAppend st.byRole (roleSig (rolesOf n.labels)) n.name }) st).data q).isSome =
        true ↔ (st.data q).isSome = true ∨ q ∈ nodes.map Node.name := by
  induction nodes with
  | nil => intro st; simp
  | cons n rest ih =>
    intro st
    simp only [List.foldl_cons, List.map_cons, List.mem_cons]
    rw [ih]
    by_cases hq : q = n.name
    · subst hq
      simp [updMap_self]
    · simp only [updMap, if_neg hq]
      tauto

theorem nodeWalk_isSome (nodes : List Node) (q : String) :
    ((nodeWalk nodes).data q).isSome = true ↔ q ∈ nodes.map Node.name := by
  have h := nodeWalk_go_isSome nodes q {}
  simpa [nodeWalk, emptyMap] using h

theorem podWalk_isOk (pods : List Pod) :
    ∀ (m : String → Option NodeCapacityData),
      (∀ p ∈ pods, (m (podKeyOf p)).isSome = true) →
      ∃ m', podWalk m pods = .ok m' ∧
        (∀ q, ((m' q).isSome = true ↔ (m q).isSome = true)) := by
  induction pods with
  | nil => intro m _; exact ⟨m, rfl, fun q => Iff.rfl⟩
  | cons p rest ih =>
    intro m hm
    have hp := hm p (List.mem_cons_self p rest)
    cases hlook : m (podKeyOf p) with
    | none => rw [hlook] at hp; exact absurd hp (by simp)
    | some d =>
      have hdom : ∀ q, (((updMap m (podKeyOf p) (podAdd d p)) q).isSome = true ↔
          (m q).isSome = true) := by
        intro q
        by_cases hq : q = podKeyOf p
        · subst hq; simp [updMap_self, hlook]
        · rw [updMap_of_ne _ _ _ _ hq]
      obtain ⟨m', hok, hdom'⟩ := ih (updMap m (podKeyOf p) (podAdd d p))
        (fun p2 hp2 => (hdom (podKeyOf p2)).mpr (hm p2 (List.mem_cons_of_mem p hp2)))
      refine ⟨m', ?_, fun q => (hdom' q).trans (hdom q)⟩
      simp only [podWalk, hlook]
      exact hok

theorem podWalk_untouched (pods : List Pod) :
    ∀ (m m' : String → Option NodeCapacityData) (q : String),
      podWalk m pods = .ok m' → (∀ p ∈ pods, podKeyOf p ≠ q) → m' q = m q := by
  induction pods with
  | nil =>
    intro m m' q hok _
    simp only [podWalk] at hok
    injection hok with h
    rw [← h]
  | cons p rest ih =>
    intro m m' q hok hq
    rcases hlook : m (podKeyOf p) with _ | d
    · simp only [podWalk, hlook] at hok
      exact Except.noConfusion hok
    · simp only [podWalk, hlook] at hok
      have h1 := ih _ _ q hok (fun p2 hp2 => hq p2 (List.mem_cons_of_mem p hp2))
      rw [h1, updMap_of_ne _ _ _ _ (fun h => hq p (List.mem_cons_self p rest) h.symm)]

theorem totalPhase_not_mem :
    ∀ (names : List String) (m : String → Option NodeCapacityData) (q : String),
      q ∉ names → q ≠ grandTotalKey → totalPhase m names q = m q := by
  intro names
  induction names with
  | nil => intro m q _ _; rfl
  | cons n ns ih =>
    intro m q hq hqt
    have hne : q ≠ n := fun h => hq (h ▸ List.mem_cons_self n ns)
    have hns : q ∉ ns := fun h => hq (List.mem_cons_of_mem n h)
    simp only [totalPhase, List.foldl_cons]
    refine (ih _ q hns hqt).trans ?_
    simp [updMap, hne, hqt]

theorem totalPhase_child :
    ∀ (names : List String) (m : String → Option NodeCapacityData) (q : String),
      names.Nodup → grandTotalKey ∉ names → q ∈ names →
      totalPhase m names q = some (withReadable ((m q).getD {})) := by
  intro names
  induction names with
  | nil => intro m q _ _ hq; exact absurd hq (List.not_mem_nil q)
  | cons n ns ih =>
    intro m q hnd ht hq
    have hn : n ∉ ns := (List.nodup_cons.mp hnd).1
    have hnd' : ns.Nodup := (List.nodup_cons.mp hnd).2
    have htn : n ≠ grandTotalKey := fun h => ht (h ▸ List.mem_cons_self n ns)
    have hts : grandTotalKey ∉ ns := fun h => ht (List.mem_cons_of_mem n h)
    simp only [totalPhase, List.foldl_cons]
    rcases List.mem_cons.mp hq with heq | hmem
    · subst heq
      refine (totalPhase_not_mem ns _ q hn htn).trans ?_
      simp [updMap, htn]
    · have hne : q ≠ n := fun h => hn (h ▸ hmem)
      have hqt : q ≠ grandTotalKey := fun h => hts (h ▸ hmem)
      refine (ih _ q hnd' hts hmem).trans ?_
      simp [updMap, hne, hqt]

theorem foldl_addTot_congr :
    ∀ (ns : List String) (F G : String → NodeCapacityData) (t : NodeCapacityData),
      (∀ n ∈ ns, F n = G n) →
      ns.foldl (fun t n => addTot t (F n)) t = ns.foldl (fun t n => addTot t (G n)) t := by
  intro ns
  induction ns with
  | nil => intro F G t _; rfl
  | cons n rest ih =>
    intro F G t h
    simp only [List.foldl_cons]
    rw [h n (List.mem_cons_self n rest)]
    exact ih F G _ (fun x hx => h x (List.mem_cons_of_mem n hx))

theorem totalPhase_total :
    ∀ (names : List String) (m : String → Option NodeCapacityData),
      grandTotalKey ∉ names → names.Nodup →
      ((totalPhase m names) grandTotalKey).getD {} =
        names.foldl (fun t n => addTot t (withReadable ((m n).getD {})))
          ((m grandTotalKey).getD {}) := by
  intro names
  induction names with
  | nil => intro m _ _; rfl
  | cons n ns ih =>
    intro m ht hnd
    have hn : n ∉ ns := (List.nodup_cons.mp hnd).1
    have hnd' : ns.Nodup := (List.nodup_cons.mp hnd).2
    have htn : n ≠ grandTotalKey := fun h => ht (h ▸ List.mem_cons_self n ns)
    have hts : grandTotalKey ∉ ns := fun h => ht (List.mem_cons_of_mem n h)
    simp only [totalPhase, List.foldl_cons]
    refine (ih _ hts hnd').trans ?_
    have hm1 : ∀ x ∈ ns,
        ((updMap (updMap m n (withReadable ((m n).getD {}))) grandTotalKey
          (addTot (((updMap m n (withReadable ((m n).getD {}))) grandTotalKey).getD {})
            (withReadable ((m n).getD {})))) x).getD ({} : NodeCapacityData) =
        (m x).getD {} := by
      intro x hx
      have hxn : x ≠ n := fun h => hn (h ▸ hx)
      have hxt : x ≠ grandTotalKey := fun h => hts (h ▸ hx)
      simp [updMap, hxn, hxt]
    have hbase : ((updMap (updMap m n (withReadable ((m n).getD {}))) grandTotalKey
        (addTot (((updMap m n (withReadable ((m n).getD {}))) grandTotalKey).getD {})
          (withReadable ((m n).getD {})))) grandTotalKey).getD ({} : NodeCapacityData) =
        addTot ((m grandTotalKey).getD {}) (withReadable ((m n).getD {})) := by
      rw [updMap_self]
      simp only [Option.getD_some]
      have : (updMap m n (withReadable ((m n).getD {}))) grandTotalKey = m grandTotalKey :=
        updMap_of_ne _ _ _ _ (fun h => htn h.symm)
      rw [this]
    rw [hbase]
    exact foldl_addTot_congr ns _ _ _ (fun x hx => by rw [hm1 x hx])

theorem availPhase_mem (m : String → Option NodeCapacityData) (names : List String)
    (r : String) (hnd : names.Nodup) (hr : r ∈ names) :
    availPhase m names r = some (setAvail ((m r).getD {})) :=
  foldl_upd_apply setAvail {} names m r hnd hr

theorem availPhase_not_mem (m : String → Option NodeCapacityData) (names : List String)
    (r : String) (hr : r ∉ names) : availPhase m names r = m r :=
  foldl_upd_skip setAvail {} names m r hr

/-- The base map handed to the pod walk: the node-walk data with the two
synthetic buckets. -/
def nodeWalkBase (nodes : List Node) : String → Option NodeCapacityData :=
  updMap (updMap (nodeWalk nodes).data unassignedKey {}) grandTotalKey {}

theorem nodeWalkBase_isSome (nodes : List Node) (q : String) :
    ((nodeWalkBase nodes) q).isSome = true ↔
      q = grandTotalKey ∨ q = unassignedKey ∨ q ∈ nodes.map Node.name := by
  unfold nodeWalkBase
  by_cases h1 : q = grandTotalKey
  · subst h1; simp [updMap_self]
  · rw [updMap_of_ne _ _ _ _ h1]
    by_cases h2 : q = unassignedKey
    · subst h2; simp [updMap_self, h1]
    · rw [updMap_of_ne _ _ _ _ h2]
      rw [nodeWalk_isSome]
      simp [h1, h2]

theorem nodeCapacityAgg_eq (nodes : List Node) (pods : List Pod) (u t : Bool)
    (m' : String → Option NodeCapacityData)
    (hok : podWalk (nodeWalkBase nodes) pods = .ok m') :
    nodeCapacityAgg nodes pods u t = .ok
      { names :=
          (if t then
            (if u then List.insertionSort strLe (nodeWalk nodes).names ++ [unassignedKey]
             else List.insertionSort strLe (nodeWalk nodes).names) ++ [grandTotalKey]
          else
            (if u then List.insertionSort strLe (nodeWalk nodes).names ++ [unassignedKey]
             else List.insertionSort strLe (nodeWalk nodes).names))
        data :=
          totalPhase (availPhase m' (nodeWalk nodes).names)
            (if u then List.insertionSort strLe (nodeWalk nodes).names ++ [unassignedKey]
             else List.insertionSort strLe (nodeWalk nodes).names)
        byRole :=
          (if t then
            alAppend
              (if u then alAppend (nodeWalk nodes).byRole tildeKey unassignedKey
               else (nodeWalk nodes).byRole) tildeKey grandTotalKey
          else
            (if u then alAppend (nodeWalk nodes).byRole tildeKey unassignedKey
             else (nodeWalk nodes).byRole)) } := by
  simp only [nodeCapacityAgg]
  rw [show updMap (updMap (nodeWalk nodes).data unassignedKey {}) grandTotalKey {} =
      nodeWalkBase nodes from rfl, hok]

theorem nodeCapacityAgg_isOk (nodes : List Node) (pods : List Pod)
    (hw : ∀ p ∈ pods, p.nodeName = "" ∨ p.nodeName ∈ nodes.map Node.name) :
    ∃ m', podWalk (nodeWalkBase nodes) pods = .ok m' := by
  have hsome : ∀ p ∈ pods, ((nodeWalkBase nodes) (podKeyOf p)).isSome = true := by
    intro p hp
    rw [nodeWalkBase_isSome]
    rcases hw p hp with h | h
    · right; left; simp [podKeyOf, h]
    · by_cases he : p.nodeName = ""
      · right; left; simp [podKeyOf, he]
      · right; right; simpa [podKeyOf, he] using h
  obtain ⟨m', hok, _⟩ := podWalk_isOk pods (nodeWalkBase nodes) hsome
  exact ⟨m', hok⟩

/-- C3: with the unassigned row not requested, the synthetic `*total*` record
of the node grouping equals the exact field-by-field sum of the
already-finalized per-node records over the displayed (sorted) node names —
pod counts, capacity, allocatable, requests, limits, and the available fields
(including negative availables) — and is not re-derived from the raw
inventory. -/
theorem c3_total_sum_of_finalized (nodes : List Node) (pods : List Pod) (t : Bool)
    (hnd : (nodes.map Node.name).Nodup)
    (hua : unassignedKey ∉ nodes.map Node.name)
    (htot : grandTotalKey ∉ nodes.map Node.name)
    (hpt : ∀ p ∈ pods, p.nodeName ≠ grandTotalKey)
    (hw : ∀ p ∈ pods, p.nodeName = "" ∨ p.nodeName ∈ nodes.map Node.name) :
    (nodeCapacityAgg nodes pods false t).isOk = true ∧
    (∀ f : NodeCapacityData → Int,
      (∀ a b, f (addTot a b) = f a + f b) → f {} = 0 →
      f (((nodeAggOut nodes pods false t).data grandTotalKey).getD {}) =
        ((List.insertionSort strLe (nodes.map Node.name)).map
          (fun n => f (((nodeAggOut nodes pods false t).data n).getD {}))).sum) ∧
    (∀ a b, (addTot a b).TotalPodCount = a.TotalPodCount + b.TotalPodCount) ∧
    (∀ a b, (addTot a b).TotalNonTermPodCount = a.TotalNonTermPodCount + b.TotalNonTermPodCount) ∧
    (∀ a b, (addTot a b).TotalCapacityPods = a.TotalCapacityPods + b.TotalCapacityPods) ∧
    (∀ a b, (addTot a b).TotalCapacityCPU = a.TotalCapacityCPU + b.TotalCapacityCPU) ∧
    (∀ a b, (addTot a b).TotalCapacityMemory = a.TotalCapacityMemory + b.TotalCapacityMemory) ∧
    (∀ a b, (addTot a b).TotalCapacityEphemeralStorage =
      a.TotalCapacityEphemeralStorage + b.TotalCapacityEphemeralStorage) ∧
    (∀ a b, (addTot a b).TotalAllocatablePods = a.TotalAllocatablePods + b.TotalAllocatablePods) ∧
    (∀ a b, (addTot a b).TotalAllocatableCPU = a.TotalAllocatableCPU + b.TotalAllocatableCPU) ∧
    (∀ a b, (addTot a b).TotalAllocatableMemory =
      a.TotalAllocatableMemory + b.TotalAllocatableMemory) ∧
    (∀ a b, (addTot a b).TotalAllocatableEphemeralStorage =
      a.TotalAllocatableEphemeralStorage + b.TotalAllocatableEphemeralStorage) ∧
    (∀ a b, (addTot a b).TotalAvailablePods = a.TotalAvailablePods + b.TotalAvailablePods) ∧
    (∀ a b, (addTot a b).TotalRequestsCPU = a.TotalRequestsCPU + b.TotalRequestsCPU) ∧
    (∀ a b, (addTot a b).TotalRequestsMemory = a.TotalRequestsMemory + b.TotalRequestsMemory) ∧
    (∀ a b, (addTot a b).TotalRequestsEphemeralStorage =
      a.TotalRequestsEphemeralStorage + b.TotalRequestsEphemeralStorage) ∧
    (∀ a b, (addTot a b).TotalLimitsCPU = a.TotalLimitsCPU + b.TotalLimitsCPU) ∧
    (∀ a b, (addTot a b).TotalLimitsMemory = a.TotalLimitsMemory + b.TotalLimitsMemory) ∧
    (∀ a b, (addTot a b).TotalLimitsEphemeralStorage =
      a.TotalLimitsEphemeralStorage + b.TotalLimitsEphemeralStorage) ∧
    (∀ a b, (addTot a b).TotalAvailableCPU = a.TotalAvailableCPU + b.TotalAvailableCPU) ∧
    (∀ a b, (addTot a b).TotalAvailableMemory =
      a.TotalAvailableMemory + b.TotalAvailableMemory) ∧
    (∀ a b, (addTot a b).TotalAvailableEphemeralStorage =
      a.TotalAvailableEphemeralStorage + b.TotalAvailableEphemeralStorage) := by
  obtain ⟨m', hok⟩ := nodeCapacityAgg_isOk nodes pods hw
  have heq := nodeCapacityAgg_eq nodes pods false t m' hok
  have hnames : (nodeWalk nodes).names = nodes.map Node.name := nodeWalk_names nodes
  have hout : nodeAggOut nodes pods false t =
      { names :=
          (if t then List.insertionSort strLe (nodes.map Node.name) ++ [grandTotalKey]
           else List.insertionSort strLe (nodes.map Node.name))
        data := totalPhase (availPhase m' (nodes.map Node.name))
          (List.insertionSort strLe (nodes.map Node.name))
        byRole :=
          (if t then alAppend (nodeWalk nodes).byRole tildeKey grandTotalKey
           else (nodeWalk nodes).byRole) } := by
    simp only [nodeAggOut, heq, hnames, Bool.false_eq_true, if_false]
  have hsortperm := List.perm_insertionSort strLe (nodes.map Node.name)
  have hsortnd : (List.insertionSort strLe (nodes.map Node.name)).Nodup :=
    hsortperm.symm.nodup hnd
  have htots : grandTotalKey ∉ List.insertionSort strLe (nodes.map Node.name) :=
    fun h => htot (hsortperm.mem_iff.mp h)
  have hfm : (availPhase m' (nodes.map Node.name)) grandTotalKey = some {} := by
    rw [availPhase_not_mem _ _ _ htot]
    have hwq : ∀ p ∈ pods, podKeyOf p ≠ grandTotalKey := by
      intro p hp
      unfold podKeyOf
      by_cases he : p.nodeName = ""
      · simp [he]
        decide
      · simpa [he] using hpt p hp
    rw [podWalk_untouched pods _ _ grandTotalKey hok hwq]
    unfold nodeWalkBase
    exact updMap_self _ _ _
  refine ⟨by rw [heq]; rfl, ?_,
    fun a b => rfl, fun a b => rfl, fun a b => rfl, fun a b => rfl, fun a b => rfl,
    fun a b => rfl, fun a b => rfl, fun a b => rfl, fun a b => rfl, fun a b => rfl,
    fun a b => rfl, fun a b => rfl, fun a b => rfl, fun a b => rfl, fun a b => rfl,
    fun a b => rfl, fun a b => rfl, fun a b => rfl, fun a b => rfl, fun a b => rfl⟩
  intro f hf h0
  rw [hout]
  simp only []
  have htotal := totalPhase_total (List.insertionSort strLe (nodes.map Node.name))
    (availPhase m' (nodes.map Node.name)) htots hsortnd
  rw [hfm] at htotal
  simp only [Option.getD_some] at htotal
  rw [htotal]
  rw [foldl_proj_add _ f
    (fun n => f (withReadable (((availPhase m' (nodes.map Node.name)) n).getD {})))
    (fun b a => hf b _) _ _]
  rw [h0, zero_add]
  apply congrArg List.sum
  apply List.map_congr_left
  intro n hn
  rw [totalPhase_child _ _ n hsortnd htots hn]
  simp only [Option.getD_some]

theorem roleStep_nodeRoles (n : Node) (st : RoleAggState) (r : String) :
    (roleStep n st r).nodeRoles = st.nodeRoles := by
  unfold roleStep
  by_cases hr : r ∈ st.roleNames <;> simp [hr]

theorem roleStep_names (n : Node) (st : RoleAggState) (r : String) (x : String) :
    x ∈ (roleStep n st r).roleNames ↔ x ∈ st.roleNames ∨ x = r := by
  unfold roleStep
  by_cases hr : r ∈ st.roleNames
  · simp only [hr, if_pos]
    constructor
    · exact Or.inl
    · rintro (h | rfl)
      · exact h
      · exact hr
  · simp [hr, List.mem_append]

theorem roleStep_names_nodup (n : Node) (st : RoleAggState) (r : String)
    (h : st.roleNames.Nodup) : (roleStep n st r).roleNames.Nodup := by
  unfold roleStep
  by_cases hr : r ∈ st.roleNames
  · simpa [hr] using h
  · simp only [hr, if_neg, not_false_iff]
    rw [List.nodup_append]
    refine ⟨h, List.nodup_singleton r, ?_⟩
    intro x hx hx1
    rw [List.mem_singleton] at hx1
    exact hr (hx1 ▸ hx)

theorem roleStep_data (n : Node) (st : RoleAggState) (r : String)
    (hinv : r ∈ st.roleNames ↔ (st.data r).isSome = true) :
    ∀ q, (roleStep n st r).data q =
      if q = r then some (roleNodeAdd ((st.data r).getD {}) n) else st.data q := by
  intro q
  unfold roleStep
  by_cases hr : r ∈ st.roleNames
  · simp only [hr, if_pos]
    by_cases hq : q = r
    · subst hq; simp [updMap_self]
    · simp [updMap, hq]
  · have hnone : st.data r = none := by
      cases hd : st.data r with
      | none => rfl
      | some d => exact absurd (hinv.mpr (by simp [hd])) hr
    simp only [hr, if_neg, not_false_iff]
    by_cases hq : q = r
    · subst hq; simp [updMap, hnone]
    · simp [updMap, hq]

theorem roleStep_inv (n : Node) (st : RoleAggState) (r : String)
    (hinv : ∀ x, x ∈ st.roleNames ↔ (st.data x).isSome = true) :
    ∀ x, x ∈ (roleStep n st r).roleNames ↔ ((roleStep n st r).data x).isSome = true := by
  intro x
  rw [roleStep_names, roleStep_data n st r (hinv r)]
  by_cases hx : x = r
  · subst hx; simp
  · simp [hx, hinv x]

theorem roleStep_foldl (n : Node) :
    ∀ (roles : List String) (st : RoleAggState),
      roles.Nodup →
      (∀ x, x ∈ st.roleNames ↔ (st.data x).isSome = true) →
      st.roleNames.Nodup →
      ((∀ x, x ∈ (roles.foldl (roleStep n) st).roleNames ↔ x ∈ st.roleNames ∨ x ∈ roles) ∧
       (roles.foldl (roleStep n) st).roleNames.Nodup ∧
       (∀ x, x ∈ (roles.foldl (roleStep n) st).roleNames ↔
          ((roles.foldl (roleStep n) st).data x).isSome = true) ∧
       (∀ r : String, (roles.foldl (roleStep n) st).data r =
          if r ∈ roles then some (roleNodeAdd ((st.data r).getD {}) n) else st.data r) ∧
       (roles.foldl (roleStep n) st).nodeRoles = st.nodeRoles) := by
  intro roles
  induction roles with
  | nil =>
    intro st _ hinv hnd
    refine ⟨fun x => by simp, hnd, hinv, fun r => by simp, rfl⟩
  | cons r roles ih =>
    intro st hnd hinv hnnd
    have hr : r ∉ roles := (List.nodup_cons.mp hnd).1
    have hnd' : roles.Nodup := (List.nodup_cons.mp hnd).2
    simp only [List.foldl_cons]
    obtain ⟨ihm, ihnd, ihinv, ihdata, ihnr⟩ :=
      ih (roleStep n st r) hnd' (roleStep_inv n st r hinv) (roleStep_names_nodup n st r hnnd)
    refine ⟨?_, ihnd, ihinv, ?_, ihnr.trans (roleStep_nodeRoles n st r)⟩
    · intro x
      rw [ihm, roleStep_names]
      simp [List.mem_cons]
      tauto
    · intro q
      rw [ihdata q, roleStep_data n st r (hinv r)]
      by_cases hq : q = r
      · subst hq
        simp [hr]
      · by_cases hq2 : q ∈ roles
        · simp [hq2, List.mem_cons, hq]
        · simp [hq2, List.mem_cons, hq]

/-- The per-role contribution fold over the node collection. -/
def nodeContribFold (r : String) (nodes : List Node) (o : Option ClusterCapacityData) :
    Option ClusterCapacityData :=
  nodes.foldl
    (fun o n => if r ∈ rolesOf n.labels then some (roleNodeAdd (o.getD {}) n) else o) o

theorem roleNodePhase_foldl (nodes : List Node) :
    ∀ (st : RoleAggState),
      (∀ x, x ∈ st.roleNames ↔ (st.data x).isSome = true) →
      st.roleNames.Nodup →
      ((∀ x, x ∈ (nodes.foldl roleNodeStep st).roleNames ↔
          x ∈ st.roleNames ∨ ∃ n ∈ nodes, x ∈ rolesOf n.labels) ∧
       (nodes.foldl roleNodeStep st).roleNames.Nodup ∧
       (∀ x, x ∈ (nodes.foldl roleNodeStep st).roleNames ↔
          ((nodes.foldl roleNodeStep st).data x).isSome = true) ∧
       (∀ r, (nodes.foldl roleNodeStep st).data r = nodeContribFold r nodes (st.data r))) := by
  induction nodes with
  | nil =>
    intro st hinv hnd
    exact ⟨fun x => by simp, hnd, hinv, fun r => by simp [nodeContribFold]⟩
  | cons n nodes ih =>
    intro st hinv hnd
    simp only [List.foldl_cons]
    obtain ⟨sm, snd, sinv, sdata, snr⟩ :=
      roleStep_foldl n (rolesOf n.labels) st (rolesOf_nodup n.labels) hinv hnd
    have hstep_inv : ∀ x, x ∈ (roleNodeStep st n).roleNames ↔
        ((roleNodeStep st n).data x).isSome = true := by
      intro x
      unfold roleNodeStep
      exact sinv x
    have hstep_nd : (roleNodeStep st n).roleNames.Nodup := snd
    obtain ⟨im, ind, iinv, idata⟩ := ih (roleNodeStep st n) hstep_inv hstep_nd
    refine ⟨?_, ind, iinv, ?_⟩
    · intro x
      rw [im]
      have hsm : x ∈ (roleNodeStep st n).roleNames ↔ x ∈ st.roleNames ∨ x ∈ rolesOf n.labels :=
        sm x
      rw [hsm, List.exists_mem_cons_iff]
      exact or_assoc
    · intro r
      rw [idata r]
      have : (roleNodeStep st n).data r =
          if r ∈ rolesOf n.labels then some (roleNodeAdd ((st.data r).getD {}) n)
          else st.data r := sdata r
      rw [this]
      simp only [nodeContribFold, List.foldl_cons]

theorem roleStep_foldl_nodeRoles (n : Node) :
    ∀ (roles : List String) (st : RoleAggState),
      (roles.foldl (roleStep n) st).nodeRoles = st.nodeRoles := by
  intro roles
  induction roles with
  | nil => intro st; rfl
  | cons r roles ih =>
    intro st
    simp only [List.foldl_cons]
    exact (ih (roleStep n st r)).trans (roleStep_nodeRoles n st r)

theorem roleNodeStep_nodeRoles (st : RoleAggState) (n : Node) (q : String) :
    (roleNodeStep st n).nodeRoles q =
      if q = n.name then some (rolesOf n.labels) else st.nodeRoles q := by
  have h : (roleNodeStep st n).nodeRoles =
      updMap ((rolesOf n.labels).foldl (roleStep n) st).nodeRoles n.name (rolesOf n.labels) :=
    rfl
  rw [h, roleStep_foldl_nodeRoles n (rolesOf n.labels) st]
  by_cases hq : q = n.name
  · subst hq; simp [updMap_self]
  · simp [updMap, hq]

theorem roleNodePhase_char (nodes : List Node) :
    (∀ x, x ∈ (roleNodePhase nodes).roleNames ↔ ∃ n ∈ nodes, x ∈ rolesOf n.labels) ∧
    (roleNodePhase nodes).roleNames.Nodup ∧
    (∀ x, x ∈ (roleNodePhase nodes).roleNames ↔
      ((roleNodePhase nodes).data x).isSome = true) ∧
    (∀ r, (roleNodePhase nodes).data r = nodeContribFold r nodes none) := by
  have h0 : ∀ x : String, x ∈ ({} : RoleAggState).roleNames ↔
      (({} : RoleAggState).data x).isSome = true := by
    intro x
    constructor
    · intro h; exact absurd h (List.not_mem_nil x)
    · intro h; simp [emptyMap] at h
  obtain ⟨hm, hnd, hinv, hdata⟩ := roleNodePhase_foldl nodes {} h0 List.nodup_nil
  unfold roleNodePhase
  refine ⟨?_, hnd, hinv, fun r => hdata r⟩
  intro x
  rw [hm x]
  constructor
  · rintro (h | h)
    · exact absurd h (List.not_mem_nil x)
    · exact h
  · exact Or.inr

theorem roleNodePhase_nodeRoles_skip (nodes : List Node) :
    ∀ (st : RoleAggState) (q : String), (∀ n ∈ nodes, n.name ≠ q) →
      (nodes.foldl roleNodeStep st).nodeRoles q = st.nodeRoles q := by
  induction nodes with
  | nil => intro st q _; rfl
  | cons n nodes ih =>
    intro st q hq
    simp only [List.foldl_cons]
    rw [ih _ q (fun x hx => hq x (List.mem_cons_of_mem n hx))]
    rw [roleNodeStep_nodeRoles]
    rw [if_neg (fun h => hq n (List.mem_cons_self n nodes) h.symm)]

theorem roleNodePhase_nodeRoles_go :
    ∀ (nodes : List Node) (st : RoleAggState), (nodes.map Node.name).Nodup →
      ∀ n0 ∈ nodes,
        (nodes.foldl roleNodeStep st).nodeRoles n0.name = some (rolesOf n0.labels) := by
  intro nodes
  induction nodes with
  | nil => intro st _ n0 h0; exact absurd h0 (List.not_mem_nil n0)
  | cons n nodes ih =>
    intro st hnd2 n0 h0
    have hn : n.name ∉ nodes.map Node.name := by
      rw [List.map_cons] at hnd2
      exact (List.nodup_cons.mp hnd2).1
    have hnd' : (nodes.map Node.name).Nodup := by
      rw [List.map_cons] at hnd2
      exact (List.nodup_cons.mp hnd2).2
    simp only [List.foldl_cons]
    rcases List.mem_cons.mp h0 with heq | hmem
    · subst heq
      rw [roleNodePhase_nodeRoles_skip nodes _ n0.name
        (fun x hx he => hn (he ▸ List.mem_map_of_mem Node.name hx))]
      rw [roleNodeStep_nodeRoles, if_pos rfl]
    · exact ih _ hnd' n0 hmem

theorem roleNodePhase_nodeRoles (nodes : List Node)
    (hnd : (nodes.map Node.name).Nodup) :
    ∀ n0 ∈ nodes, (roleNodePhase nodes).nodeRoles n0.name = some (rolesOf n0.labels) :=
  roleNodePhase_nodeRoles_go nodes {} hnd

theorem rolePodStep_inner (p : Pod) :
    ∀ (rs : List String) (m : String → Option ClusterCapacityData) (r : String),
      rs.Nodup →
      (rs.foldl (fun m r => updMap m r (rolePodAdd ((m r).getD {}) p)) m) r =
        if r ∈ rs then some (rolePodAdd ((m r).getD {}) p) else m r := by
  intro rs
  induction rs with
  | nil => intro m r _; simp
  | cons r0 rs ih =>
    intro m r hnd
    have h0 : r0 ∉ rs := (List.nodup_cons.mp hnd).1
    have hnd' : rs.Nodup := (List.nodup_cons.mp hnd).2
    simp only [List.foldl_cons]
    rw [ih _ r hnd']
    by_cases hr : r = r0
    · subst hr
      simp [h0, updMap_self]
    · by_cases hr2 : r ∈ rs
      · simp [hr2, List.mem_cons, hr, updMap, fun h : r = r0 => hr h]
      · simp [hr2, List.mem_cons, hr, updMap]

/-- The per-role contribution fold over the pod collection, guided by a fixed
node-name-to-roles map. -/
def podContribFold (nodeRoles : String → Option (List String)) (r : String)
    (pods : List Pod) (o : Option ClusterCapacityData) : Option ClusterCapacityData :=
  pods.foldl
    (fun o p =>
      if r ∈ (nodeRoles (podKeyOf p)).getD [] then some (rolePodAdd (o.getD {}) p) else o) o

theorem rolePodPhase_char (nodeRoles : String → Option (List String))
    (hnd : ∀ q, ((nodeRoles q).getD []).Nodup) :
    ∀ (pods : List Pod) (m : String → Option ClusterCapacityData) (r : String),
      rolePodPhase m nodeRoles pods r = podContribFold nodeRoles r pods (m r) := by
  intro pods
  induction pods with
  | nil => intro m r; rfl
  | cons p pods ih =>
    intro m r
    have hL : rolePodPhase m nodeRoles (p :: pods) r =
        rolePodPhase (rolePodStep nodeRoles m p) nodeRoles pods r := rfl
    have hstep : (rolePodStep nodeRoles m p) r =
        if r ∈ (nodeRoles (podKeyOf p)).getD [] then some (rolePodAdd ((m r).getD {}) p)
        else m r :=
      rolePodStep_inner p _ m r (hnd (podKeyOf p))
    have hcons : podContribFold nodeRoles r (p :: pods)
        (m r) = podContribFold nodeRoles r pods
          (if r ∈ (nodeRoles (podKeyOf p)).getD [] then some (rolePodAdd ((m r).getD {}) p)
           else m r) := rfl
    rw [hL, ih _ r, hstep, hcons]
theorem optFold_filter {α β : Type} (d0 : β) (P : α → Bool) (add : β → α → β) :
    ∀ (L : List α) (o : Option β),
      L.foldl (fun o a => if P a then some (add (o.getD d0) a) else o) o =
        if (L.filter P).isEmpty then o else some ((L.filter P).foldl add (o.getD d0)) := by
  intro L
  induction L with
  | nil => intro o; simp
  | cons a L ih =>
    intro o
    simp only [List.foldl_cons, List.filter_cons]
    cases hp : P a with
    | true =>
      simp only [if_pos rfl, reduceIte, List.isEmpty_cons, Bool.false_eq_true, if_false]
      rw [ih (some (add (o.getD d0) a))]
      cases hf : (L.filter P).isEmpty with
      | true =>
        rw [List.isEmpty_iff] at hf
        simp [hf]
      | false =>
        simp [hf]
    | false =>
      simp only [Bool.false_eq_true, if_false]
      exact ih o

theorem rolePodAdd_const (f : ClusterCapacityData → Int)
    (hc : ∀ a c, f (contAddC a c) = f a)
    (hp : ∀ (d : ClusterCapacityData) (x y : Int),
      f { d with TotalPodCount := x, TotalNonTermPodCount := y } = f d) :
    ∀ d p, f (rolePodAdd d p) = f d := by
  intro d p
  unfold rolePodAdd
  by_cases h : nonTerminal p
  · simp only [h, if_pos]
    rw [foldl_proj_const contAddC f hc, hp]
  · simp only [h, Bool.false_eq_true, if_false]
    rw [hp d (d.TotalPodCount + 1) d.TotalNonTermPodCount]

theorem rolePodAdd_quantity (f : ClusterCapacityData → Int) (q : ContainerResources → Int)
    (hc : ∀ a c, f (contAddC a c) = f a + q c)
    (hp : ∀ (d : ClusterCapacityData) (x y : Int),
      f { d with TotalPodCount := x, TotalNonTermPodCount := y } = f d) :
    ∀ d p, f (rolePodAdd d p) =
      f d + (if nonTerminal p = true then (p.containers.map q).sum else 0) := by
  intro d p
  unfold rolePodAdd
  by_cases h : nonTerminal p
  · simp only [h, if_pos]
    rw [foldl_proj_add contAddC f q hc, hp]
  · simp only [h, Bool.false_eq_true, if_false]
    rw [hp d (d.TotalPodCount + 1) d.TotalNonTermPodCount]
    simp

theorem rolePodAdd_podCount (d : ClusterCapacityData) (p : Pod) :
    (rolePodAdd d p).TotalPodCount = d.TotalPodCount + 1 := by
  unfold rolePodAdd
  by_cases h : nonTerminal p
  · simp only [h, if_pos]
    rw [foldl_proj_const contAddC (fun d => d.TotalPodCount) (fun _ _ => rfl)]
  · simp [h]

theorem rolePodAdd_nonTermCount (d : ClusterCapacityData) (p : Pod) :
    (rolePodAdd d p).TotalNonTermPodCount =
      d.TotalNonTermPodCount + (if nonTerminal p = true then (1 : Int) else 0) := by
  unfold rolePodAdd
  by_cases h : nonTerminal p
  · simp only [h, if_pos, reduceIte]
    rw [foldl_proj_const contAddC (fun d => d.TotalNonTermPodCount) (fun _ _ => rfl)]
  · simp [h]

/-- The role list a pod is matched against in the pod phase, expressed over the
input collections: the synthetic unassigned bucket for an unassigned pod, the
classified role set of its (unique) node, or the empty list for an unknown
node. -/
def podRolesIn (nodes : List Node) (p : Pod) : List String :=
  if p.nodeName = "" then [unassignedKey]
  else
    match nodes.find? (fun n => n.name == p.nodeName) with
    | some n => rolesOf n.labels
    | none => []

theorem find_name_unique (nodes : List Node) (hnd : (nodes.map Node.name).Nodup) :
    ∀ n0 ∈ nodes, nodes.find? (fun n => n.name == n0.name) = some n0 := by
  induction nodes with
  | nil => intro n0 h0; exact absurd h0 (List.not_mem_nil n0)
  | cons n nodes ih =>
    intro n0 h0
    have hn : n.name ∉ nodes.map Node.name := by
      rw [List.map_cons] at hnd
      exact (List.nodup_cons.mp hnd).1
    have hnd' : (nodes.map Node.name).Nodup := by
      rw [List.map_cons] at hnd
      exact (List.nodup_cons.mp hnd).2
    rcases List.mem_cons.mp h0 with heq | hmem
    · subst heq
      rw [List.find?_cons_of_pos _ (by simp)]
    · by_cases he : n.name = n0.name
      · exact absurd (he ▸ List.mem_map_of_mem Node.name hmem) hn
      · rw [List.find?_cons_of_neg _ (by simp [he])]
        exact ih hnd' n0 hmem

theorem roleNodePhase_nodeRoles_none (nodes : List Node) (q : String)
    (hq : ∀ n ∈ nodes, n.name ≠ q) : (roleNodePhase nodes).nodeRoles q = none := by
  unfold roleNodePhase
  rw [roleNodePhase_nodeRoles_skip nodes {} q hq]
  rfl

theorem roleNodePhase_nodeRoles_shape (nodes : List Node) :
    ∀ (st : RoleAggState), (∀ q, ((st.nodeRoles q).getD []).Nodup) →
      ∀ q, (((nodes.foldl roleNodeStep st).nodeRoles q).getD []).Nodup := by
  induction nodes with
  | nil => intro st h q; exact h q
  | cons n nodes ih =>
    intro st h q
    simp only [List.foldl_cons]
    apply ih
    intro q2
    rw [roleNodeStep_nodeRoles]
    by_cases hq : q2 = n.name
    · simp [hq, rolesOf_nodup]
    · simp only [hq, if_neg, not_false_iff]
      exact h q2

theorem nr_lookup_mem (nodes : List Node)
    (hnd : (nodes.map Node.name).Nodup)
    (hua2 : unassignedKey ∉ nodes.map Node.name)
    (r : String) (hrua : r ≠ unassignedKey) (p : Pod) :
    (r ∈ ((updMap (roleNodePhase nodes).nodeRoles unassignedKey [unassignedKey])
        (podKeyOf p)).getD []) ↔ r ∈ podRolesIn nodes p := by
  by_cases he : p.nodeName = ""
  · unfold podKeyOf podRolesIn
    simp [he, updMap_self]
  · have hkey : podKeyOf p = p.nodeName := by simp [podKeyOf, he]
    rw [hkey]
    by_cases hu : p.nodeName = unassignedKey
    · rw [hu, updMap_self]
      have hfind : nodes.find? (fun n => n.name == unassignedKey) = none := by
        rw [List.find?_eq_none]
        intro n hn
        simp only [beq_iff_eq]
        exact fun h => hua2 (h ▸ List.mem_map_of_mem Node.name hn)
      unfold podRolesIn
      simp only [he, if_neg, not_false_iff, hu, hfind]
      simp [hrua]
    · rw [updMap_of_ne _ _ _ _ hu]
      unfold podRolesIn
      simp only [he, if_neg, not_false_iff]
      cases hfind : nodes.find? (fun n => n.name == p.nodeName) with
      | some n0 =>
        have hn0 : n0 ∈ nodes := List.mem_of_find?_eq_some hfind
        have hname : n0.name = p.nodeName := by
          have := List.find?_some hfind
          simpa using this
        rw [← hname, roleNodePhase_nodeRoles nodes hnd n0 hn0]
        simp
      | none =>
        rw [List.find?_eq_none] at hfind
        have : (roleNodePhase nodes).nodeRoles p.nodeName = none := by
          apply roleNodePhase_nodeRoles_none
          intro n hn
          have := hfind n hn
          simpa using this
        rw [this]
        simp

theorem nodeContribFold_eq (r : String) (nodes : List Node)
    (o : Option ClusterCapacityData) :
    nodeContribFold r nodes o =
      nodes.foldl
        (fun o n => if (fun n : Node => decide (r ∈ rolesOf n.labels)) n = true
          then some (roleNodeAdd (o.getD {}) n) else o) o := by
  unfold nodeContribFold
  congr 1
  funext o n
  by_cases h : r ∈ rolesOf n.labels <;> simp [h]

theorem podContribFold_eq (nodeRoles : String → Option (List String)) (r : String)
    (pods : List Pod) (o : Option ClusterCapacityData) :
    podContribFold nodeRoles r pods o =
      pods.foldl
        (fun o p => if (fun p : Pod => decide (r ∈ (nodeRoles (podKeyOf p)).getD [])) p = true
          then some (rolePodAdd (o.getD {}) p) else o) o := by
  unfold podContribFold
  congr 1
  funext o p
  by_cases h : r ∈ (nodeRoles (podKeyOf p)).getD [] <;> simp [h]

/-- C4: for every role of a node's classified role set — in particular every
role of a multi-role node — the node-role aggregation's bucket for that role
receives the node's full tallies and capacity/allocatable quantities, and the
full requests/limits of every non-terminal pod whose node carries the role:
each bucket equals the unapportioned sum over the nodes carrying the role and
the pods assigned to those nodes. -/
theorem c4_multi_role_full_contribution
    (nodes : List Node) (pods : List Pod) (u : Bool) (r : String)
    (hnd : (nodes.map Node.name).Nodup)
    (hua2 : unassignedKey ∉ nodes.map Node.name)
    (hnoua : ∀ n ∈ nodes, unassignedKey ∉ rolesOf n.labels)
    (hrua : r ≠ unassignedKey)
    (hex : ∃ n ∈ nodes, r ∈ rolesOf n.labels) :
    ((nodeRoleAgg nodes pods u).2 r).isSome = true ∧
    (((nodeRoleAgg nodes pods u).2 r).getD {}).TotalNodeCount =
      ((nodes.filter (fun n => decide (r ∈ rolesOf n.labels))).length : Int) ∧
    (((nodeRoleAgg nodes pods u).2 r).getD {}).TotalReadyNodeCount =
      ((nodes.filter (fun n => decide (r ∈ rolesOf n.labels))).map readyCondCount).sum ∧
    (((nodeRoleAgg nodes pods u).2 r).getD {}).TotalUnschedulableNodeCount =
      ((nodes.filter (fun n => decide (r ∈ rolesOf n.labels))).map
        (fun n => if n.unschedulable then (1 : Int) else 0)).sum ∧
    (((nodeRoleAgg nodes pods u).2 r).getD {}).TotalCapacityPods =
      ((nodes.filter (fun n => decide (r ∈ rolesOf n.labels))).map Node.capacityPods).sum ∧
    (((nodeRoleAgg nodes pods u).2 r).getD {}).TotalCapacityCPU =
      ((nodes.filter (fun n => decide (r ∈ rolesOf n.labels))).map Node.capacityCPU).sum ∧
    (((nodeRoleAgg nodes pods u).2 r).getD {}).TotalCapacityMemory =
      ((nodes.filter (fun n => decide (r ∈ rolesOf n.labels))).map Node.capacityMemory).sum ∧
    (((nodeRoleAgg nodes pods u).2 r).getD {}).TotalCapacityEphemeralStorage =
      ((nodes.filter (fun n => decide (r ∈ rolesOf n.labels))).map
        Node.capacityEphemeralStorage).sum ∧
    (((nodeRoleAgg nodes pods u).2 r).getD {}).TotalAllocatablePods =
      ((nodes.filter (fun n => decide (r ∈ rolesOf n.labels))).map Node.allocatablePods).sum ∧
    (((nodeRoleAgg nodes pods u).2 r).getD {}).TotalAllocatableCPU =
      ((nodes.filter (fun n => decide (r ∈ rolesOf n.labels))).map Node.allocatableCPU).sum ∧
    (((nodeRoleAgg nodes pods u).2 r).getD {}).TotalAllocatableMemory =
      ((nodes.filter (fun n => decide (r ∈ rolesOf n.labels))).map Node.allocatableMemory).sum ∧
    (((nodeRoleAgg nodes pods u).2 r).getD {}).TotalAllocatableEphemeralStorage =
      ((nodes.filter (fun n => decide (r ∈ rolesOf n.labels))).map
        Node.allocatableEphemeralStorage).sum ∧
    (((nodeRoleAgg nodes pods u).2 r).getD {}).TotalPodCount =
      ((pods.filter (fun p => decide (r ∈ podRolesIn nodes p))).length : Int) ∧
    (((nodeRoleAgg nodes pods u).2 r).getD {}).TotalNonTermPodCount =
      (((pods.filter (fun p => decide (r ∈ podRolesIn nodes p))).filter
        nonTerminal).length : Int) ∧
    (((nodeRoleAgg nodes pods u).2 r).getD {}).TotalRequestsCPU =
      (((pods.filter (fun p => decide (r ∈ podRolesIn nodes p))).filter nonTerminal).map
        (fun p => (p.containers.map reqCPU).sum)).sum ∧
    (((nodeRoleAgg nodes pods u).2 r).getD {}).TotalLimitsCPU =
      (((pods.filter (fun p => decide (r ∈ podRolesIn nodes p))).filter nonTerminal).map
        (fun p => (p.containers.map limCPU).sum)).sum ∧
    (((nodeRoleAgg nodes pods u).2 r).getD {}).TotalRequestsMemory =
      (((pods.filter (fun p => decide (r ∈ podRolesIn nodes p))).filter nonTerminal).map
        (fun p => (p.containers.map reqMem).sum)).sum ∧
    (((nodeRoleAgg nodes pods u).2 r).getD {}).TotalLimitsMemory =
      (((pods.filter (fun p => decide (r ∈ podRolesIn nodes p))).filter nonTerminal).map
        (fun p => (p.containers.map limMem).sum)).sum ∧
    (((nodeRoleAgg nodes pods u).2 r).getD {}).TotalRequestsEphemeralStorage =
      (((pods.filter (fun p => decide (r ∈ podRolesIn nodes p))).filter nonTerminal).map
        (fun p => (p.containers.map reqEph).sum)).sum ∧
    (((nodeRoleAgg nodes pods u).2 r).getD {}).TotalLimitsEphemeralStorage =
      (((pods.filter (fun p => decide (r ∈ podRolesIn nodes p))).filter nonTerminal).map
        (fun p => (p.containers.map limEph).sum)).sum := by
  obtain ⟨hm, hndR, hinv, hdata⟩ := roleNodePhase_char nodes
  have hrN : r ∈ (roleNodePhase nodes).roleNames := (hm r).mpr hex
  have huaN : unassignedKey ∉ (roleNodePhase nodes).roleNames := by
    intro h
    obtain ⟨n, hn, hr2⟩ := (hm unassignedKey).mp h
    exact hnoua n hn hr2
  have hsortperm := List.perm_insertionSort strLe (roleNodePhase nodes).roleNames
  have hsortnd : (List.insertionSort strLe (roleNodePhase nodes).roleNames).Nodup :=
    hsortperm.symm.nodup hndR
  have hrS : r ∈ List.insertionSort strLe (roleNodePhase nodes).roleNames :=
    hsortperm.mem_iff.mpr hrN
  have hdisp_nd :
      (if u then List.insertionSort strLe (roleNodePhase nodes).roleNames ++ [unassignedKey]
       else List.insertionSort strLe (roleNodePhase nodes).roleNames).Nodup := by
    cases u with
    | false => simpa using hsortnd
    | true =>
      simp only [if_pos rfl, reduceIte]
      rw [List.nodup_append]
      refine ⟨hsortnd, List.nodup_singleton _, ?_⟩
      intro x hx hx1
      rw [List.mem_singleton] at hx1
      exact huaN (hsortperm.mem_iff.mp (hx1 ▸ hx))
  have hdisp_mem :
      r ∈ (if u then List.insertionSort strLe (roleNodePhase nodes).roleNames ++ [unassignedKey]
           else List.insertionSort strLe (roleNodePhase nodes).roleNames) := by
    cases u with
    | false => simpa using hrS
    | true =>
      simp only [if_pos rfl, reduceIte]
      exact List.mem_append_left _ hrS
  have hnrshape : ∀ q,
      (((updMap (roleNodePhase nodes).nodeRoles unassignedKey [unassignedKey]) q).getD
        []).Nodup := by
    intro q
    by_cases hq : q = unassignedKey
    · subst hq; simp [updMap_self]
    · rw [updMap_of_ne _ _ _ _ hq]
      have hbase : ∀ q2 : String, (((({} : RoleAggState).nodeRoles) q2).getD []).Nodup := by
        intro q2; simp [emptyMap]
      exact roleNodePhase_nodeRoles_shape nodes {} hbase q
  have hsnd : (nodeRoleAgg nodes pods u).2 =
      (if u then List.insertionSort strLe (roleNodePhase nodes).roleNames ++ [unassignedKey]
       else List.insertionSort strLe (roleNodePhase nodes).roleNames).foldl
        (fun m r => updMap m r (roleReadable ((m r).getD {})))
        ((roleNodePhase nodes).roleNames.foldl
          (fun m r => updMap m r (roleFinalize ((m r).getD {})))
          (rolePodPhase (updMap (roleNodePhase nodes).data unassignedKey {})
            (updMap (roleNodePhase nodes).nodeRoles unassignedKey [unassignedKey]) pods)) :=
    rfl
  have h3 : (nodeRoleAgg nodes pods u).2 r =
      some (roleReadable
        ((((roleNodePhase nodes).roleNames.foldl
            (fun m r => updMap m r (roleFinalize ((m r).getD {})))
            (rolePodPhase (updMap (roleNodePhase nodes).data unassignedKey {})
              (updMap (roleNodePhase nodes).nodeRoles unassignedKey [unassignedKey]) pods))
          r).getD {})) := by
    rw [hsnd]
    exact foldl_upd_apply roleReadable {} _ _ r hdisp_nd hdisp_mem
  have h2 : ((roleNodePhase nodes).roleNames.foldl
        (fun m r => updMap m r (roleFinalize ((m r).getD {})))
        (rolePodPhase (updMap (roleNodePhase nodes).data unassignedKey {})
          (updMap (roleNodePhase nodes).nodeRoles unassignedKey [unassignedKey]) pods)) r =
      some (roleFinalize
        (((rolePodPhase (updMap (roleNodePhase nodes).data unassignedKey {})
            (updMap (roleNodePhase nodes).nodeRoles unassignedKey [unassignedKey]) pods)
          r).getD {})) :=
    foldl_upd_apply roleFinalize {} _ _ r hndR hrN
  have h1 : (rolePodPhase (updMap (roleNodePhase nodes).data unassignedKey {})
        (updMap (roleNodePhase nodes).nodeRoles unassignedKey [unassignedKey]) pods) r =
      podContribFold (updMap (roleNodePhase nodes).nodeRoles unassignedKey [unassignedKey]) r
        pods ((updMap (roleNodePhase nodes).data unassignedKey {}) r) :=
    rolePodPhase_char _ hnrshape pods _ r
  have h0 : (updMap (roleNodePhase nodes).data unassignedKey
      ({} : ClusterCapacityData)) r = nodeContribFold r nodes none := by
    rw [updMap_of_ne _ _ _ _ hrua]
    exact hdata r
  have hFne : (nodes.filter (fun n => decide (r ∈ rolesOf n.labels))).isEmpty = false := by
    obtain ⟨n, hn, hr2⟩ := hex
    have : n ∈ nodes.filter (fun n => decide (r ∈ rolesOf n.labels)) :=
      List.mem_filter.mpr ⟨hn, by simpa using hr2⟩
    cases hE : (nodes.filter (fun n => decide (r ∈ rolesOf n.labels))).isEmpty
    · rfl
    · rw [List.isEmpty_iff] at hE
      rw [hE] at this
      exact absurd this (List.not_mem_nil n)
  have hnode : nodeContribFold r nodes none =
      some ((nodes.filter (fun n => decide (r ∈ rolesOf n.labels))).foldl roleNodeAdd {}) := by
    rw [nodeContribFold_eq, optFold_filter]
    rw [hFne]
    simp
  have hfilters : pods.filter
      (fun p => decide (r ∈ ((updMap (roleNodePhase nodes).nodeRoles unassignedKey
        [unassignedKey]) (podKeyOf p)).getD [])) =
      pods.filter (fun p => decide (r ∈ podRolesIn nodes p)) := by
    apply List.filter_congr
    intro p _
    simp only [decide_eq_decide]
    exact nr_lookup_mem nodes hnd hua2 r hrua p
  have hpod : (podContribFold (updMap (roleNodePhase nodes).nodeRoles unassignedKey
        [unassignedKey]) r pods (nodeContribFold r nodes none)).getD {} =
      (pods.filter (fun p => decide (r ∈ podRolesIn nodes p))).foldl rolePodAdd
        ((nodes.filter (fun n => decide (r ∈ rolesOf n.labels))).foldl roleNodeAdd {}) := by
    rw [podContribFold_eq, optFold_filter, hnode, hfilters]
    cases hq : (pods.filter (fun p => decide (r ∈ podRolesIn nodes p))).isEmpty
    · simp
    · rw [List.isEmpty_iff] at hq
      rw [hq]
      simp
  have hfetch : (((nodeRoleAgg nodes pods u).2 r).getD {}) =
      roleReadable (roleFinalize
        ((pods.filter (fun p => decide (r ∈ podRolesIn nodes p))).foldl rolePodAdd
          ((nodes.filter (fun n => decide (r ∈ rolesOf n.labels))).foldl roleNodeAdd {}))) := by
    rw [h3, h2, h1, h0]
    simp only [Option.getD_some]
    rw [hpod]
  have hmainN : ∀ (f : ClusterCapacityData → Int) (g : Node → Int),
      (∀ d n, f (roleNodeAdd d n) = f d + g n) →
      (∀ d p, f (rolePodAdd d p) = f d) →
      (∀ d, f (roleFinalize d) = f d) →
      (∀ d, f (roleReadable d) = f d) →
      f {} = 0 →
      f (((nodeRoleAgg nodes pods u).2 r).getD {}) =
        ((nodes.filter (fun n => decide (r ∈ rolesOf n.labels))).map g).sum := by
    intro f g hfn hfp hff hfr hf0
    rw [hfetch, hfr, hff]
    rw [foldl_proj_const rolePodAdd f hfp]
    rw [foldl_proj_add roleNodeAdd f g hfn]
    rw [hf0, zero_add]
  have hmainP : ∀ (f : ClusterCapacityData → Int) (g : Pod → Int),
      (∀ d n, f (roleNodeAdd d n) = f d) →
      (∀ d p, f (rolePodAdd d p) = f d + g p) →
      (∀ d, f (roleFinalize d) = f d) →
      (∀ d, f (roleReadable d) = f d) →
      f {} = 0 →
      f (((nodeRoleAgg nodes pods u).2 r).getD {}) =
        ((pods.filter (fun p => decide (r ∈ podRolesIn nodes p))).map g).sum := by
    intro f g hfn hfp hff hfr hf0
    rw [hfetch, hfr, hff]
    rw [foldl_proj_add rolePodAdd f g hfp]
    rw [foldl_proj_const roleNodeAdd f hfn]
    rw [hf0, zero_add]
  refine ⟨by rw [h3]; rfl, ?_, ?_, ?_, ?_, ?_, ?_, ?_, ?_, ?_, ?_, ?_, ?_, ?_, ?_, ?_, ?_,
    ?_, ?_, ?_⟩
  · rw [hmainN (fun d => d.TotalNodeCount) (fun _ => 1) (fun d n => rfl)
      (rolePodAdd_const _ (fun a c => rfl) (fun d x y => rfl)) (fun d => rfl) (fun d => rfl)
      rfl]
    exact sum_ones_eq_length _
  · exact hmainN (fun d => d.TotalReadyNodeCount) readyCondCount (fun d n => rfl)
      (rolePodAdd_const _ (fun a c => rfl) (fun d x y => rfl)) (fun d => rfl) (fun d => rfl)
      rfl
  · exact hmainN (fun d => d.TotalUnschedulableNodeCount)
      (fun n => if n.unschedulable then (1 : Int) else 0) (fun d n => rfl)
      (rolePodAdd_const _ (fun a c => rfl) (fun d x y => rfl)) (fun d => rfl) (fun d => rfl)
      rfl
  · exact hmainN (fun d => d.TotalCapacityPods) Node.capacityPods (fun d n => rfl)
      (rolePodAdd_const _ (fun a c => rfl) (fun d x y => rfl)) (fun d => rfl) (fun d => rfl)
      rfl
  · exact hmainN (fun d => d.TotalCapacityCPU) Node.capacityCPU (fun d n => rfl)
      (rolePodAdd_const _ (fun a c => rfl) (fun d x y => rfl)) (fun d => rfl) (fun d => rfl)
      rfl
  · exact hmainN (fun d => d.TotalCapacityMemory) Node.capacityMemory (fun d n => rfl)
      (rolePodAdd_const _ (fun a c => rfl) (fun d x y => rfl)) (fun d => rfl) (fun d => rfl)
      rfl
  · exact hmainN (fun d => d.TotalCapacityEphemeralStorage) Node.capacityEphemeralStorage
      (fun d n => rfl)
      (rolePodAdd_const _ (fun a c => rfl) (fun d x y => rfl)) (fun d => rfl) (fun d => rfl)
      rfl
  · exact hmainN (fun d => d.TotalAllocatablePods) Node.allocatablePods (fun d n => rfl)
      (rolePodAdd_const _ (fun a c => rfl) (fun d x y => rfl)) (fun d => rfl) (fun d => rfl)
      rfl
  · exact hmainN (fun d => d.TotalAllocatableCPU) Node.allocatableCPU (fun d n => rfl)
      (rolePodAdd_const _ (fun a c => rfl) (fun d x y => rfl)) (fun d => rfl) (fun d => rfl)
      rfl
  · exact hmainN (fun d => d.TotalAllocatableMemory) Node.allocatableMemory (fun d n => rfl)
      (rolePodAdd_const _ (fun a c => rfl) (fun d x y => rfl)) (fun d => rfl) (fun d => rfl)
      rfl
  · exact hmainN (fun d => d.TotalAllocatableEphemeralStorage)
      Node.allocatableEphemeralStorage (fun d n => rfl)
      (rolePodAdd_const _ (fun a c => rfl) (fun d x y => rfl)) (fun d => rfl) (fun d => rfl)
      rfl
  · rw [hmainP (fun d => d.TotalPodCount) (fun _ => 1) (fun d n => rfl)
      (fun d p => rolePodAdd_podCount d p) (fun d => rfl) (fun d => rfl) rfl]
    exact sum_ones_eq_length _
  · rw [hmainP (fun d => d.TotalNonTermPodCount)
      (fun p => if nonTerminal p = true then (1 : Int) else 0) (fun d n => rfl)
      (fun d p => rolePodAdd_nonTermCount d p) (fun d => rfl) (fun d => rfl) rfl]
    exact sum_ite_eq_filter_length _ _
  · rw [hmainP (fun d => d.TotalRequestsCPU)
      (fun p => if nonTerminal p = true then (p.containers.map reqCPU).sum else 0)
      (fun d n => rfl)
      (rolePodAdd_quantity _ reqCPU (fun a c => rfl) (fun d x y => rfl))
      (fun d => rfl) (fun d => rfl) rfl]
    exact sum_ite_eq_filter_sum _ _ _
  · rw [hmainP (fun d => d.TotalLimitsCPU)
      (fun p => if nonTerminal p = true then (p.containers.map limCPU).sum else 0)
      (fun d n => rfl)
      (rolePodAdd_quantity _ limCPU (fun a c => rfl) (fun d x y => rfl))
      (fun d => rfl) (fun d => rfl) rfl]
    exact sum_ite_eq_filter_sum _ _ _
  · rw [hmainP (fun d => d.TotalRequestsMemory)
      (fun p => if nonTerminal p = true then (p.containers.map reqMem).sum else 0)
      (fun d n => rfl)
      (rolePodAdd_quantity _ reqMem (fun a c => rfl) (fun d x y => rfl))
      (fun d => rfl) (fun d => rfl) rfl]
    exact sum_ite_eq_filter_sum _ _ _
  · rw [hmainP (fun d => d.TotalLimitsMemory)
      (fun p => if nonTerminal p = true then (p.containers.map limMem).sum else 0)
      (fun d n => rfl)
      (rolePodAdd_quantity _ limMem (fun a c => rfl) (fun d x y => rfl))
      (fun d => rfl) (fun d => rfl) rfl]
    exact sum_ite_eq_filter_sum _ _ _
  · rw [hmainP (fun d => d.TotalRequestsEphemeralStorage)
      (fun p => if nonTerminal p = true then (p.containers.map reqEph).sum else 0)
      (fun d n => rfl)
      (rolePodAdd_quantity _ reqEph (fun a c => rfl) (fun d x y => rfl))
      (fun d => rfl) (fun d => rfl) rfl]
    exact sum_ite_eq_filter_sum _ _ _
  · rw [hmainP (fun d => d.TotalLimitsEphemeralStorage)
      (fun p => if nonTerminal p = true then (p.containers.map limEph).sum else 0)
      (fun d n => rfl)
      (rolePodAdd_quantity _ limEph (fun a c => rfl) (fun d x y => rfl))
      (fun d => rfl) (fun d => rfl) rfl]
    exact sum_ite_eq_filter_sum _ _ _

def c4MultiNode : Node :=
  { name := "mr",
    labels := [("node-role.kubernetes.io/worker", ""), ("node-role.kubernetes.io/infra", "")],
    conditions := [{ condType := "Ready", status := "True" }],
    allocatableCPU := 4000 }

def c4SoloNode : Node :=
  { name := "solo", labels := [("kubernetes.io/role", "worker")], allocatableCPU := 2000 }

def c4Nodes : List Node := [c4MultiNode, c4SoloNode]

def c4Pods : List Pod :=
  [{ nodeName := "mr", phase := "Running",
     containers := [{ requestsCPU := some 100 }] },
   { nodeName := "solo", phase := "Succeeded",
     containers := [{ requestsCPU := some 50 }] },
   { nodeName := "", phase := "Running",
     containers := [{ requestsCPU := some 7 }] }]

theorem c4_multi_role_full_contribution_witness :
    (∃ n ∈ c4Nodes, "worker" ∈ rolesOf n.labels) ∧
    ((nodeRoleAgg c4Nodes c4Pods true).2 "worker").isSome = true ∧
    (((nodeRoleAgg c4Nodes c4Pods true).2 "worker").getD {}).TotalNodeCount = 2 ∧
    (((nodeRoleAgg c4Nodes c4Pods true).2 "worker").getD {}).TotalPodCount = 2 ∧
    (((nodeRoleAgg c4Nodes c4Pods true).2 "worker").getD {}).TotalNonTermPodCount = 1 ∧
    (((nodeRoleAgg c4Nodes c4Pods true).2 "worker").getD {}).TotalRequestsCPU = 100 := by
  have h := c4_multi_role_full_contribution c4Nodes c4Pods true "worker"
    (by decide) (by decide) (by decide) (by decide) (by decide)
  obtain ⟨h1, h2, _, _, _, _, _, _, _, _, _, _, h13, h14, h15, _⟩ := h
  refine ⟨by decide, h1, ?_, ?_, ?_, ?_⟩
  · rw [h2]; decide
  · rw [h13]; decide
  · rw [h14]; decide
  · rw [h15]; decide

def c3wNodes : List Node := [{ name := "n1", allocatablePods := 10, allocatableCPU := 2000 }]

def c3wPods : List Pod :=
  [{ nodeName := "n1", phase := "Running", containers := [{ requestsCPU := some 250 }] }]

theorem c3_total_sum_of_finalized_witness :
    (c3wNodes.map Node.name).Nodup ∧
    (nodeCapacityAgg c3wNodes c3wPods false true).isOk = true ∧
    (((nodeAggOut c3wNodes c3wPods false true).data grandTotalKey).getD
        ({} : NodeCapacityData)).TotalPodCount =
      ((List.insertionSort strLe (c3wNodes.map Node.name)).map
        (fun n => (((nodeAggOut c3wNodes c3wPods false true).data n).getD
          ({} : NodeCapacityData)).TotalPodCount)).sum := by
  have h := c3_total_sum_of_finalized c3wNodes c3wPods true (by decide) (by decide)
    (by decide) (by decide) (by decide)
  exact ⟨by decide, h.1, h.2.1 (fun d => d.TotalPodCount) (fun a b => rfl) rfl⟩

theorem podAdd_const (f : NodeCapacityData → Int)
    (hc : ∀ a c, f (contAddD a c) = f a)
    (hp : ∀ (d : NodeCapacityData) (x y : Int),
      f { d with TotalPodCount := x, TotalNonTermPodCount := y } = f d) :
    ∀ d p, f (podAdd d p) = f d := by
  intro d p
  unfold podAdd
  by_cases h : nonTerminal p
  · simp only [h, if_pos]
    rw [foldl_proj_const contAddD f hc, hp]
  · simp only [h, Bool.false_eq_true, if_false]
    rw [hp d (d.TotalPodCount + 1) d.TotalNonTermPodCount]

theorem podWalk_proj (f : NodeCapacityData → Int)
    (hf : ∀ d p, f (podAdd d p) = f d) :
    ∀ (pods : List Pod) (m m' : String → Option NodeCapacityData),
      podWalk m pods = .ok m' →
      ∀ q, f ((m' q).getD ({} : NodeCapacityData)) = f ((m q).getD {}) := by
  intro pods
  induction pods with
  | nil =>
    intro m m' hok q
    simp only [podWalk] at hok
    injection hok with h
    rw [← h]
  | cons p rest ih =>
    intro m m' hok q
    rcases hlook : m (podKeyOf p) with _ | d
    · simp only [podWalk, hlook] at hok
      exact Except.noConfusion hok
    · simp only [podWalk, hlook] at hok
      rw [ih _ _ hok q]
      by_cases hq : q = podKeyOf p
      · subst hq
        rw [updMap_self, hlook]
        simp only [Option.getD_some]
        exact hf d p
      · rw [updMap_of_ne _ _ _ _ hq]

theorem foldl_upd_proj {β : Type} (f : β → Int) (G : β → β) (d0 : β)
    (hG : ∀ x, f (G x) = f x) :
    ∀ (ks : List String) (m : String → Option β) (q : String),
      f (((ks.foldl (fun m k => updMap m k (G ((m k).getD d0))) m) q).getD d0) =
        f ((m q).getD d0) := by
  intro ks
  induction ks with
  | nil => intro m q; rfl
  | cons k rest ih =>
    intro m q
    simp only [List.foldl_cons]
    rw [ih]
    by_cases hq : q = k
    · subst hq
      rw [updMap_self]
      simp only [Option.getD_some]
      exact hG _
    · rw [updMap_of_ne _ _ _ _ hq]

theorem rolePodPhase_proj (f : ClusterCapacityData → Int)
    (hf : ∀ d p, f (rolePodAdd d p) = f d) :
    ∀ (pods : List Pod) (data : String → Option ClusterCapacityData)
      (nr : String → Option (List String)) (q : String),
      f (((rolePodPhase data nr pods) q).getD ({} : ClusterCapacityData)) =
        f ((data q).getD {}) := by
  intro pods
  induction pods with
  | nil => intro data nr q; rfl
  | cons p rest ih =>
    intro data nr q
    have h1 : rolePodPhase data nr (p :: rest) =
        rolePodPhase (rolePodStep nr data p) nr rest := rfl
    rw [h1, ih]
    exact foldl_upd_proj f (fun x => rolePodAdd x p) {} (fun x => hf x p)
      ((nr (podKeyOf p)).getD []) data q

/-- C1 (amended): availability is exact subtraction with no clamping for the
cluster rollup, for every real per-node bucket, and for every real role
bucket: available pods = allocatable pods minus the non-terminal pod count and
available CPU/memory/ephemeral-storage = allocatable minus requested, negatives
preserved. The synthetic `*unassigned*` bucket is the exception in both
groupings: the finalize loops run over the name lists captured before the
`*unassigned*` key is appended, so its available fields are never derived and
stay zero. -/
theorem c1_available_amended (nodes : List Node) (pods : List Pod) (u t : Bool)
    (hnd : (nodes.map Node.name).Nodup)
    (hua : unassignedKey ∉ nodes.map Node.name)
    (htot : grandTotalKey ∉ nodes.map Node.name)
    (hw : ∀ p ∈ pods, p.nodeName = "" ∨ p.nodeName ∈ nodes.map Node.name)
    (hnoua : ∀ n ∈ nodes, unassignedKey ∉ rolesOf n.labels) :
    ((clusterCapacity nodes pods).TotalAvailablePods =
        (clusterCapacity nodes pods).TotalAllocatablePods -
          (clusterCapacity nodes pods).TotalNonTermPodCount ∧
      (clusterCapacity nodes pods).TotalAvailableCPU =
        (clusterCapacity nodes pods).TotalAllocatableCPU -
          (clusterCapacity nodes pods).TotalRequestsCPU ∧
      (clusterCapacity nodes pods).TotalAvailableMemory =
        (clusterCapacity nodes pods).TotalAllocatableMemory -
          (clusterCapacity nodes pods).TotalRequestsMemory ∧
      (clusterCapacity nodes pods).TotalAvailableEphemeralStorage =
        (clusterCapacity nodes pods).TotalAllocatableEphemeralStorage -
          (clusterCapacity nodes pods).TotalRequestsEphemeralStorage) ∧
    ((nodeCapacityAgg nodes pods u t).isOk = true ∧
      ∀ nm ∈ nodes.map Node.name,
        (((nodeAggOut nodes pods u t).data nm).getD {}).TotalAvailablePods =
          (((nodeAggOut nodes pods u t).data nm).getD {}).TotalAllocatablePods -
            (((nodeAggOut nodes pods u t).data nm).getD {}).TotalNonTermPodCount ∧
        (((nodeAggOut nodes pods u t).data nm).getD {}).TotalAvailableCPU =
          (((nodeAggOut nodes pods u t).data nm).getD {}).TotalAllocatableCPU -
            (((nodeAggOut nodes pods u t).data nm).getD {}).TotalRequestsCPU ∧
        (((nodeAggOut nodes pods u t).data nm).getD {}).TotalAvailableMemory =
          (((nodeAggOut nodes pods u t).data nm).getD {}).TotalAllocatableMemory -
            (((nodeAggOut nodes pods u t).data nm).getD {}).TotalRequestsMemory ∧
        (((nodeAggOut nodes pods u t).data nm).getD {}).TotalAvailableEphemeralStorage =
          (((nodeAggOut nodes pods u t).data nm).getD {}).TotalAllocatableEphemeralStorage -
            (((nodeAggOut nodes pods u t).data nm).getD {}).TotalRequestsEphemeralStorage) ∧
    (∀ r ∈ (nodeRoleAgg nodes pods u).1, r ≠ unassignedKey →
      (((nodeRoleAgg nodes pods u).2 r).getD {}).TotalAvailablePods =
        (((nodeRoleAgg nodes pods u).2 r).getD {}).TotalAllocatablePods -
          (((nodeRoleAgg nodes pods u).2 r).getD {}).TotalNonTermPodCount ∧
      (((nodeRoleAgg nodes pods u).2 r).getD {}).TotalAvailableCPU =
        (((nodeRoleAgg nodes pods u).2 r).getD {}).TotalAllocatableCPU -
          (((nodeRoleAgg nodes pods u).2 r).getD {}).TotalRequestsCPU ∧
      (((nodeRoleAgg nodes pods u).2 r).getD {}).TotalAvailableMemory =
        (((nodeRoleAgg nodes pods u).2 r).getD {}).TotalAllocatableMemory -
          (((nodeRoleAgg nodes pods u).2 r).getD {}).TotalRequestsMemory ∧
      (((nodeRoleAgg nodes pods u).2 r).getD {}).TotalAvailableEphemeralStorage =
        (((nodeRoleAgg nodes pods u).2 r).getD {}).TotalAllocatableEphemeralStorage -
          (((nodeRoleAgg nodes pods u).2 r).getD {}).TotalRequestsEphemeralStorage) ∧
    (u = true →
      unassignedKey ∈ (nodeAggOut nodes pods u t).names ∧
      (((nodeAggOut nodes pods u t).data unassignedKey).getD {}).TotalAvailablePods = 0 ∧
      (((nodeAggOut nodes pods u t).data unassignedKey).getD {}).TotalAvailableCPU = 0 ∧
      (((nodeAggOut nodes pods u t).data unassignedKey).getD {}).TotalAvailableMemory = 0 ∧
      (((nodeAggOut nodes pods u t).data unassignedKey).getD
        {}).TotalAvailableEphemeralStorage = 0) ∧
    (u = true →
      unassignedKey ∈ (nodeRoleAgg nodes pods u).1 ∧
      (((nodeRoleAgg nodes pods u).2 unassignedKey).getD {}).TotalAvailablePods = 0 ∧
      (((nodeRoleAgg nodes pods u).2 unassignedKey).getD {}).TotalAvailableCPU = 0 ∧
      (((nodeRoleAgg nodes pods u).2 unassignedKey).getD {}).TotalAvailableMemory = 0 ∧
      (((nodeRoleAgg nodes pods u).2 unassignedKey).getD
        {}).TotalAvailableEphemeralStorage = 0) := by
  obtain ⟨m', hok⟩ := nodeCapacityAgg_isOk nodes pods hw
  have heq := nodeCapacityAgg_eq nodes pods u t m' hok
  have hnames : (nodeWalk nodes).names = nodes.map Node.name := nodeWalk_names nodes
  have hsortperm := List.perm_insertionSort strLe (nodes.map Node.name)
  have hsortnd : (List.insertionSort strLe (nodes.map Node.name)).Nodup :=
    hsortperm.symm.nodup hnd
  have huas : unassignedKey ∉ List.insertionSort strLe (nodes.map Node.name) :=
    fun h => hua (hsortperm.mem_iff.mp h)
  have htots : grandTotalKey ∉ List.insertionSort strLe (nodes.map Node.name) :=
    fun h => htot (hsortperm.mem_iff.mp h)
  have hdata : (nodeAggOut nodes pods u t).data =
      totalPhase (availPhase m' (nodes.map Node.name))
        (if u then List.insertionSort strLe (nodes.map Node.name) ++ [unassignedKey]
         else List.insertionSort strLe (nodes.map Node.name)) := by
    simp only [nodeAggOut, heq, hnames]
  have hnamesOut : (nodeAggOut nodes pods u t).names =
      (if t then
        (if u then List.insertionSort strLe (nodes.map Node.name) ++ [unassignedKey]
         else List.insertionSort strLe (nodes.map Node.name)) ++ [grandTotalKey]
      else
        (if u then List.insertionSort strLe (nodes.map Node.name) ++ [unassignedKey]
         else List.insertionSort strLe (nodes.map Node.name))) := by
    simp only [nodeAggOut, heq, hnames]
  have hdispnd :
      (if u then List.insertionSort strLe (nodes.map Node.name) ++ [unassignedKey]
       else List.insertionSort strLe (nodes.map Node.name)).Nodup := by
    cases u with
    | false => simpa using hsortnd
    | true =>
      simp only [if_pos rfl, reduceIte]
      rw [List.nodup_append]
      refine ⟨hsortnd, List.nodup_singleton _, ?_⟩
      intro x hx hx1
      rw [List.mem_singleton] at hx1
      exact huas (hx1 ▸ hx)
  have htotd : grandTotalKey ∉
      (if u then List.insertionSort strLe (nodes.map Node.name) ++ [unassignedKey]
       else List.insertionSort strLe (nodes.map Node.name)) := by
    cases u with
    | false => simpa using htots
    | true =>
      simp only [if_pos rfl, reduceIte]
      intro h
      rcases List.mem_append.mp h with h1 | h1
      · exact htots h1
      · rw [List.mem_singleton] at h1
        exact absurd h1 (by decide)
  obtain ⟨hmR, hndR, hinvR, hdataR⟩ := roleNodePhase_char nodes
  have huaR : unassignedKey ∉ (roleNodePhase nodes).roleNames := by
    intro h
    obtain ⟨n, hn, hr2⟩ := (hmR unassignedKey).mp h
    exact hnoua n hn hr2
  have hsortpermR := List.perm_insertionSort strLe (roleNodePhase nodes).roleNames
  have hsortndR : (List.insertionSort strLe (roleNodePhase nodes).roleNames).Nodup :=
    hsortpermR.symm.nodup hndR
  have huaS : unassignedKey ∉ List.insertionSort strLe (roleNodePhase nodes).roleNames :=
    fun h => huaR (hsortpermR.mem_iff.mp h)
  have hdispndR :
      (if u then List.insertionSort strLe (roleNodePhase nodes).roleNames ++ [unassignedKey]
       else List.insertionSort strLe (roleNodePhase nodes).roleNames).Nodup := by
    cases u with
    | false => simpa using hsortndR
    | true =>
      simp only [if_pos rfl, reduceIte]
      rw [List.nodup_append]
      refine ⟨hsortndR, List.nodup_singleton _, ?_⟩
      intro x hx hx1
      rw [List.mem_singleton] at hx1
      exact huaS (hx1 ▸ hx)
  have hCsnd : (nodeRoleAgg nodes pods u).2 =
      (if u then List.insertionSort strLe (roleNodePhase nodes).roleNames ++ [unassignedKey]
       else List.insertionSort strLe (roleNodePhase nodes).roleNames).foldl
        (fun m r => updMap m r (roleReadable ((m r).getD {})))
        ((roleNodePhase nodes).roleNames.foldl
          (fun m r => updMap m r (roleFinalize ((m r).getD {})))
          (rolePodPhase (updMap (roleNodePhase nodes).data unassignedKey {})
            (updMap (roleNodePhase nodes).nodeRoles unassignedKey [unassignedKey]) pods)) :=
    rfl
  refine ⟨⟨rfl, rfl, rfl, rfl⟩, ⟨by rw [heq]; rfl, ?_⟩, ?_, ?_, ?_⟩
  · intro nm hnm
    have hnmS : nm ∈ List.insertionSort strLe (nodes.map Node.name) :=
      hsortperm.mem_iff.mpr hnm
    have hnmD : nm ∈
        (if u then List.insertionSort strLe (nodes.map Node.name) ++ [unassignedKey]
         else List.insertionSort strLe (nodes.map Node.name)) := by
      cases u with
      | false => simpa using hnmS
      | true =>
        simp only [if_pos rfl, reduceIte]
        exact List.mem_append_left _ hnmS
    have hdB : (nodeAggOut nodes pods u t).data nm =
        some (withReadable (setAvail ((m' nm).getD {}))) := by
      rw [hdata]
      rw [totalPhase_child _ _ nm hdispnd htotd hnmD]
      rw [availPhase_mem m' (nodes.map Node.name) nm hnd hnm]
      rfl
    rw [hdB]
    exact ⟨rfl, rfl, rfl, rfl⟩
  · intro r hr hrne
    have hrD : r ∈
        (if u then List.insertionSort strLe (roleNodePhase nodes).roleNames ++ [unassignedKey]
         else List.insertionSort strLe (roleNodePhase nodes).roleNames) := hr
    have hrS : r ∈ List.insertionSort strLe (roleNodePhase nodes).roleNames := by
      cases u with
      | false => simpa using hrD
      | true =>
        simp only [if_pos rfl, reduceIte] at hrD
        rcases List.mem_append.mp hrD with h1 | h1
        · exact h1
        · rw [List.mem_singleton] at h1
          exact absurd h1 hrne
    have hrR : r ∈ (roleNodePhase nodes).roleNames := hsortpermR.mem_iff.mp hrS
    have h3 : (nodeRoleAgg nodes pods u).2 r =
        some (roleReadable
          ((((roleNodePhase nodes).roleNames.foldl
              (fun m r => updMap m r (roleFinalize ((m r).getD {})))
              (rolePodPhase (updMap (roleNodePhase nodes).data unassignedKey {})
                (updMap (roleNodePhase nodes).nodeRoles unassignedKey [unassignedKey]) pods))
            r).getD {})) := by
      rw [hCsnd]
      exact foldl_upd_apply roleReadable {} _ _ r hdispndR hrD
    have h2 : ((roleNodePhase nodes).roleNames.foldl
          (fun m r => updMap m r (roleFinalize ((m r).getD {})))
          (rolePodPhase (updMap (roleNodePhase nodes).data unassignedKey {})
            (updMap (roleNodePhase nodes).nodeRoles unassignedKey [unassignedKey]) pods)) r =
        some (roleFinalize
          (((rolePodPhase (updMap (roleNodePhase nodes).data unassignedKey {})
              (updMap (roleNodePhase nodes).nodeRoles unassignedKey [unassignedKey]) pods)
            r).getD {})) :=
      foldl_upd_apply roleFinalize {} _ _ r hndR hrR
    rw [h3, h2]
    exact ⟨rfl, rfl, rfl, rfl⟩
  · intro hu
    subst hu
    have hbase : (nodeWalkBase nodes) unassignedKey = some {} := by
      unfold nodeWalkBase
      rw [updMap_of_ne _ _ _ _ (by decide), updMap_self]
    have hDgen : ∀ f : NodeCapacityData → Int,
        (∀ a c, f (contAddD a c) = f a) →
        (∀ (d : NodeCapacityData) (x y : Int),
          f { d with TotalPodCount := x, TotalNonTermPodCount := y } = f d) →
        f ({} : NodeCapacityData) = 0 →
        f ((m' unassignedKey).getD {}) = 0 := by
      intro f hc hp h0
      have hh := podWalk_proj f (podAdd_const f hc hp) pods (nodeWalkBase nodes) m' hok
        unassignedKey
      rw [hh, hbase]
      simpa using h0
    have hdW : (nodeAggOut nodes pods true t).data unassignedKey =
        some (withReadable ((m' unassignedKey).getD {})) := by
      rw [hdata]
      rw [totalPhase_child _ _ unassignedKey hdispnd htotd
        (by
          simp only [if_pos rfl, reduceIte]
          exact List.mem_append_right _ (List.mem_singleton_self _))]
      rw [availPhase_not_mem m' (nodes.map Node.name) unassignedKey hua]
    refine ⟨?_, ?_, ?_, ?_, ?_⟩
    · rw [hnamesOut]
      cases t with
      | false =>
        simp only [reduceIte]
        exact List.mem_append_right _ (List.mem_singleton_self _)
      | true =>
        simp only [reduceIte]
        exact List.mem_append_left _ (List.mem_append_right _ (List.mem_singleton_self _))
    · rw [hdW]
      exact hDgen (fun d => d.TotalAvailablePods) (fun a c => rfl) (fun d x y => rfl) rfl
    · rw [hdW]
      exact hDgen (fun d => d.TotalAvailableCPU) (fun a c => rfl) (fun d x y => rfl) rfl
    · rw [hdW]
      exact hDgen (fun d => d.TotalAvailableMemory) (fun a c => rfl) (fun d x y => rfl) rfl
    · rw [hdW]
      exact hDgen (fun d => d.TotalAvailableEphemeralStorage) (fun a c => rfl)
        (fun d x y => rfl) rfl
  · intro hu
    subst hu
    have hEgen : ∀ f : ClusterCapacityData → Int,
        (∀ a c, f (contAddC a c) = f a) →
        (∀ (d : ClusterCapacityData) (x y : Int),
          f { d with TotalPodCount := x, TotalNonTermPodCount := y } = f d) →
        f ({} : ClusterCapacityData) = 0 →
        f (((rolePodPhase (updMap (roleNodePhase nodes).data unassignedKey {})
            (updMap (roleNodePhase nodes).nodeRoles unassignedKey [unassignedKey]) pods)
          unassignedKey).getD {}) = 0 := by
      intro f hc hp h0
      have hh := rolePodPhase_proj f (rolePodAdd_const f hc hp) pods
        (updMap (roleNodePhase nodes).data unassignedKey {})
        (updMap (roleNodePhase nodes).nodeRoles unassignedKey [unassignedKey]) unassignedKey
      rw [hh, updMap_self]
      simpa using h0
    have hE3 : (nodeRoleAgg nodes pods true).2 unassignedKey =
        some (roleReadable
          ((((roleNodePhase nodes).roleNames.foldl
              (fun m r => updMap m r (roleFinalize ((m r).getD {})))
              (rolePodPhase (updMap (roleNodePhase nodes).data unassignedKey {})
                (updMap (roleNodePhase nodes).nodeRoles unassignedKey [unassignedKey]) pods))
            unassignedKey).getD {})) := by
      rw [hCsnd]
      exact foldl_upd_apply roleReadable {} _ _ unassignedKey hdispndR
        (by
          simp only [if_pos rfl, reduceIte]
          exact List.mem_append_right _ (List.mem_singleton_self _))
    have hE2 : ((roleNodePhase nodes).roleNames.foldl
          (fun m r => updMap m r (roleFinalize ((m r).getD {})))
          (rolePodPhase (updMap (roleNodePhase nodes).data unassignedKey {})
            (updMap (roleNodePhase nodes).nodeRoles unassignedKey [unassignedKey]) pods))
          unassignedKey =
        (rolePodPhase (updMap (roleNodePhase nodes).data unassignedKey {})
          (updMap (roleNodePhase nodes).nodeRoles unassignedKey [unassignedKey]) pods)
          unassignedKey :=
      foldl_upd_skip roleFinalize {} _ _ unassignedKey huaR
    refine ⟨?_, ?_, ?_, ?_, ?_⟩
    · rw [show (nodeRoleAgg nodes pods true).1 =
          List.insertionSort strLe (roleNodePhase nodes).roleNames ++ [unassignedKey] from
          rfl]
      exact List.mem_append_right _ (List.mem_singleton_self _)
    · rw [hE3, hE2]
      exact hEgen (fun d => d.TotalAvailablePods) (fun a c => rfl) (fun d x y => rfl) rfl
    · rw [hE3, hE2]
      exact hEgen (fun d => d.TotalAvailableCPU) (fun a c => rfl) (fun d x y => rfl) rfl
    · rw [hE3, hE2]
      exact hEgen (fun d => d.TotalAvailableMemory) (fun a c => rfl) (fun d x y => rfl) rfl
    · rw [hE3, hE2]
      exact hEgen (fun d => d.TotalAvailableEphemeralStorage) (fun a c => rfl)
        (fun d x y => rfl) rfl

def c1wNodes : List Node :=
  [{ name := "w1", labels := [("node-role.kubernetes.io/worker", "")],
     allocatablePods := 5, allocatableCPU := 1000 }]

def c1wPods : List Pod :=
  [{ nodeName := "w1", phase := "Running", containers := [{ requestsCPU := some 300 }] },
   { nodeName := "", phase := "Running", containers := [{ requestsCPU := some 40 }] }]

theorem c1_available_amended_witness :
    (c1wNodes.map Node.name).Nodup ∧
    "w1" ∈ c1wNodes.map Node.name ∧
    (clusterCapacity c1wNodes c1wPods).TotalAvailableCPU =
      (clusterCapacity c1wNodes c1wPods).TotalAllocatableCPU -
        (clusterCapacity c1wNodes c1wPods).TotalRequestsCPU ∧
    (((nodeAggOut c1wNodes c1wPods true true).data "w1").getD {}).TotalAvailableCPU =
      (((nodeAggOut c1wNodes c1wPods true true).data "w1").getD {}).TotalAllocatableCPU -
        (((nodeAggOut c1wNodes c1wPods true true).data "w1").getD {}).TotalRequestsCPU ∧
    (((nodeAggOut c1wNodes c1wPods true true).data unassignedKey).getD
      ({} : NodeCapacityData)).TotalAvailableCPU = 0 ∧
    (((nodeRoleAgg c1wNodes c1wPods true).2 unassignedKey).getD
      ({} : ClusterCapacityData)).TotalAvailableCPU = 0 := by
  have h := c1_available_amended c1wNodes c1wPods true true (by decide) (by decide)
    (by decide) (by decide) (by decide)
  refine ⟨by decide, by decide, h.1.2.1, ?_, ?_, ?_⟩
  · exact (h.2.1.2 "w1" (by decide)).2.1
  · exact (h.2.2.2.1 rfl).2.2.1
  · exact (h.2.2.2.2 rfl).2.2.1

theorem podAdd_podCount (d : NodeCapacityData) (p : Pod) :
    (podAdd d p).TotalPodCount = d.TotalPodCount + 1 := by
  unfold podAdd
  by_cases h : nonTerminal p
  · simp only [h, if_pos]
    rw [foldl_proj_const contAddD (fun d => d.TotalPodCount) (fun _ _ => rfl)]
  · simp [h]

theorem podAdd_nonTermCount (d : NodeCapacityData) (p : Pod) :
    (podAdd d p).TotalNonTermPodCount =
      d.TotalNonTermPodCount + (if nonTerminal p = true then (1 : Int) else 0) := by
  unfold podAdd
  by_cases h : nonTerminal p
  · simp only [h, if_pos, reduceIte]
    rw [foldl_proj_const contAddD (fun d => d.TotalNonTermPodCount) (fun _ _ => rfl)]
  · simp [h]

theorem podAdd_quantity (f : NodeCapacityData → Int) (q : ContainerResources → Int)
    (hc : ∀ a c, f (contAddD a c) = f a + q c)
    (hp : ∀ (d : NodeCapacityData) (x y : Int),
      f { d with TotalPodCount := x, TotalNonTermPodCount := y } = f d) :
    ∀ d p, f (podAdd d p) =
      f d + (if nonTerminal p = true then (p.containers.map q).sum else 0) := by
  intro d p
  unfold podAdd
  by_cases h : nonTerminal p
  · simp only [h, if_pos]
    rw [foldl_proj_add contAddD f q hc, hp]
  · simp only [h, Bool.false_eq_true, if_false]
    rw [hp d (d.TotalPodCount + 1) d.TotalNonTermPodCount]
    simp

theorem podWalk_at (q : String) :
    ∀ (pods : List Pod) (m m' : String → Option NodeCapacityData),
      podWalk m pods = .ok m' → (m q).isSome = true →
      m' q = some ((pods.filter (fun p => podKeyOf p == q)).foldl podAdd
        ((m q).getD ({} : NodeCapacityData))) := by
  intro pods
  induction pods with
  | nil =>
    intro m m' hok hq
    simp only [podWalk] at hok
    injection hok with h
    obtain ⟨d, hd⟩ := Option.isSome_iff_exists.mp hq
    rw [← h, hd]
    rfl
  | cons p rest ih =>
    intro m m' hok hq
    rcases hlook : m (podKeyOf p) with _ | d
    · simp only [podWalk, hlook] at hok
      exact Except.noConfusion hok
    · simp only [podWalk, hlook] at hok
      by_cases hqk : podKeyOf p = q
      · subst hqk
        have hq2 : ((updMap m (podKeyOf p) (podAdd d p)) (podKeyOf p)).isSome = true := by
          rw [updMap_self]
          rfl
        have h2 := ih _ _ hok hq2
        rw [h2, updMap_self]
        simp [hlook]
      · have hq2 : ((updMap m (podKeyOf p) (podAdd d p)) q).isSome = true := by
          rw [updMap_of_ne _ _ _ _ (fun h => hqk h.symm)]
          exact hq
        have h2 := ih _ _ hok hq2
        rw [h2, updMap_of_ne _ _ _ _ (fun h => hqk h.symm)]
        have hb : (podKeyOf p == q) = false := by simpa using hqk
        simp [List.filter_cons, hb]

/-- C10: unassigned pods are folded into the `*total*` rollup of the node
grouping exactly when the caller requested the unassigned row: the
`*unassigned*` name is displayed iff the flag is set, the `*total*` record of
a run with the flag equals the flag-less `*total*` plus (field by field, via
`addTot`) the displayed unassigned bucket, and that bucket carries exactly the
unassigned pods: their count, their non-terminal count, and the CPU requests
of their non-terminal members. -/
theorem c10_total_includes_unassigned_iff (nodes : List Node) (pods : List Pod) (t : Bool)
    (hnd : (nodes.map Node.name).Nodup)
    (hua : unassignedKey ∉ nodes.map Node.name)
    (htot : grandTotalKey ∉ nodes.map Node.name)
    (hpt : ∀ p ∈ pods, p.nodeName ≠ grandTotalKey)
    (hpua : ∀ p ∈ pods, p.nodeName ≠ unassignedKey)
    (hw : ∀ p ∈ pods, p.nodeName = "" ∨ p.nodeName ∈ nodes.map Node.name) :
    (∀ u : Bool, unassignedKey ∈ (nodeAggOut nodes pods u t).names ↔ u = true) ∧
    (((nodeAggOut nodes pods true t).data grandTotalKey).getD {} =
      addTot (((nodeAggOut nodes pods false t).data grandTotalKey).getD {})
        (((nodeAggOut nodes pods true t).data unassignedKey).getD {})) ∧
    (((nodeAggOut nodes pods true t).data unassignedKey).getD {}).TotalPodCount =
      ((pods.filter (fun p => p.nodeName == "")).length : Int) ∧
    (((nodeAggOut nodes pods true t).data unassignedKey).getD {}).TotalNonTermPodCount =
      (((pods.filter (fun p => p.nodeName == "")).filter nonTerminal).length : Int) ∧
    (((nodeAggOut nodes pods true t).data unassignedKey).getD {}).TotalRequestsCPU =
      (((pods.filter (fun p => p.nodeName == "")).filter nonTerminal).map
        (fun p => (p.containers.map reqCPU).sum)).sum ∧
    (∀ a b, (addTot a b).TotalPodCount = a.TotalPodCount + b.TotalPodCount) ∧
    (∀ a b, (addTot a b).TotalRequestsCPU = a.TotalRequestsCPU + b.TotalRequestsCPU) := by
  obtain ⟨m', hok⟩ := nodeCapacityAgg_isOk nodes pods hw
  have hnames : (nodeWalk nodes).names = nodes.map Node.name := nodeWalk_names nodes
  have heqT := nodeCapacityAgg_eq nodes pods true t m' hok
  have heqF := nodeCapacityAgg_eq nodes pods false t m' hok
  have hsortperm := List.perm_insertionSort strLe (nodes.map Node.name)
  have hsortnd : (List.insertionSort strLe (nodes.map Node.name)).Nodup :=
    hsortperm.symm.nodup hnd
  have huas : unassignedKey ∉ List.insertionSort strLe (nodes.map Node.name) :=
    fun h => hua (hsortperm.mem_iff.mp h)
  have htots : grandTotalKey ∉ List.insertionSort strLe (nodes.map Node.name) :=
    fun h => htot (hsortperm.mem_iff.mp h)
  have hndA : (List.insertionSort strLe (nodes.map Node.name) ++ [unassignedKey]).Nodup := by
    rw [List.nodup_append]
    refine ⟨hsortnd, List.nodup_singleton _, ?_⟩
    intro x hx hx1
    rw [List.mem_singleton] at hx1
    exact huas (hx1 ▸ hx)
  have htotA : grandTotalKey ∉
      List.insertionSort strLe (nodes.map Node.name) ++ [unassignedKey] := by
    intro h
    rcases List.mem_append.mp h with h1 | h1
    · exact htots h1
    · rw [List.mem_singleton] at h1
      exact absurd h1 (by decide)
  have hdataT : (nodeAggOut nodes pods true t).data =
      totalPhase (availPhase m' (nodes.map Node.name))
        (List.insertionSort strLe (nodes.map Node.name) ++ [unassignedKey]) := by
    simp only [nodeAggOut, heqT, hnames, reduceIte]
  have hdataF : (nodeAggOut nodes pods false t).data =
      totalPhase (availPhase m' (nodes.map Node.name))
        (List.insertionSort strLe (nodes.map Node.name)) := by
    simp only [nodeAggOut, heqF, hnames]
    rfl
  have hfm : (availPhase m' (nodes.map Node.name)) grandTotalKey = some {} := by
    rw [availPhase_not_mem _ _ _ htot]
    have hwq : ∀ p ∈ pods, podKeyOf p ≠ grandTotalKey := by
      intro p hp
      unfold podKeyOf
      by_cases he : p.nodeName = ""
      · simp [he]
        decide
      · simpa [he] using hpt p hp
    rw [podWalk_untouched pods _ _ grandTotalKey hok hwq]
    unfold nodeWalkBase
    exact updMap_self _ _ _
  have hMua : (availPhase m' (nodes.map Node.name)) unassignedKey = m' unassignedKey :=
    availPhase_not_mem _ _ _ hua
  have hbase : (nodeWalkBase nodes) unassignedKey = some {} := by
    unfold nodeWalkBase
    rw [updMap_of_ne _ _ _ _ (by decide), updMap_self]
  have hAt := podWalk_at unassignedKey pods (nodeWalkBase nodes) m' hok
    (by rw [hbase]; rfl)
  rw [hbase] at hAt
  have hfc : pods.filter (fun p => podKeyOf p == unassignedKey) =
      pods.filter (fun p => p.nodeName == "") := by
    apply List.filter_congr
    intro p hp
    by_cases he : p.nodeName = ""
    · simp [podKeyOf, he]
    · simp [podKeyOf, he, hpua p hp]
  rw [hfc] at hAt
  have hua_disp : (nodeAggOut nodes pods true t).data unassignedKey =
      some (withReadable ((m' unassignedKey).getD {})) := by
    rw [hdataT]
    rw [totalPhase_child _ _ unassignedKey hndA htotA
      (List.mem_append_right _ (List.mem_singleton_self _))]
    rw [hMua]
  have htt : ((nodeAggOut nodes pods true t).data grandTotalKey).getD {} =
      addTot ((List.insertionSort strLe (nodes.map Node.name)).foldl
          (fun b n => addTot b
            (withReadable (((availPhase m' (nodes.map Node.name)) n).getD {})))
          ({} : NodeCapacityData))
        (withReadable ((m' unassignedKey).getD {})) := by
    rw [hdataT]
    rw [totalPhase_total _ _ htotA hndA]
    rw [hfm]
    simp only [Option.getD_some]
    rw [List.foldl_append]
    simp only [List.foldl_cons, List.foldl_nil]
    rw [hMua]
  have hff : ((nodeAggOut nodes pods false t).data grandTotalKey).getD {} =
      (List.insertionSort strLe (nodes.map Node.name)).foldl
        (fun b n => addTot b
          (withReadable (((availPhase m' (nodes.map Node.name)) n).getD {})))
        ({} : NodeCapacityData) := by
    rw [hdataF]
    rw [totalPhase_total _ _ htots hsortnd]
    rw [hfm]
    simp only [Option.getD_some]
  have hQ : ((m' unassignedKey).getD ({} : NodeCapacityData)) =
      (pods.filter (fun p => p.nodeName == "")).foldl podAdd {} := by
    rw [hAt]
    rfl
  refine ⟨?_, ?_, ?_, ?_, ?_, fun a b => rfl, fun a b => rfl⟩
  · intro u
    cases u with
    | true =>
      have hn : (nodeAggOut nodes pods true t).names =
          (if t then
            (List.insertionSort strLe (nodes.map Node.name) ++ [unassignedKey]) ++
              [grandTotalKey]
          else List.insertionSort strLe (nodes.map Node.name) ++ [unassignedKey]) := by
        simp only [nodeAggOut, heqT, hnames, reduceIte]
      rw [hn]
      refine iff_of_true ?_ rfl
      cases t with
      | false =>
        exact List.mem_append_right _ (List.mem_singleton_self _)
      | true =>
        simp only [reduceIte]
        exact List.mem_append_left _
          (List.mem_append_right _ (List.mem_singleton_self _))
    | false =>
      have hn : (nodeAggOut nodes pods false t).names =
          (if t then List.insertionSort strLe (nodes.map Node.name) ++ [grandTotalKey]
           else List.insertionSort strLe (nodes.map Node.name)) := by
        simp only [nodeAggOut, heqF, hnames]
        rfl
      rw [hn]
      refine iff_of_false ?_ (by decide)
      cases t with
      | false =>
        exact huas
      | true =>
        simp only [reduceIte]
        intro h
        rcases List.mem_append.mp h with h1 | h1
        · exact huas h1
        · rw [List.mem_singleton] at h1
          exact absurd h1 (by decide)
  · rw [htt, hff, hua_disp]
    rfl
  · rw [hua_disp]
    show ((m' unassignedKey).getD {}).TotalPodCount = _
    rw [hQ]
    rw [foldl_proj_add podAdd (fun d => d.TotalPodCount) (fun _ => (1 : Int))
      (fun b a => podAdd_podCount b a)]
    rw [sum_ones_eq_length]
    simp
  · rw [hua_disp]
    show ((m' unassignedKey).getD {}).TotalNonTermPodCount = _
    rw [hQ]
    rw [foldl_proj_add podAdd (fun d => d.TotalNonTermPodCount)
      (fun p => if nonTerminal p = true then (1 : Int) else 0)
      (fun b a => podAdd_nonTermCount b a)]
    rw [sum_ite_eq_filter_length]
    simp
  · rw [hua_disp]
    show ((m' unassignedKey).getD {}).TotalRequestsCPU = _
    rw [hQ]
    rw [foldl_proj_add podAdd (fun d => d.TotalRequestsCPU)
      (fun p => if nonTerminal p = true then (p.containers.map reqCPU).sum else 0)
      (podAdd_quantity _ reqCPU (fun a c => rfl) (fun d x y => rfl))]
    rw [sum_ite_eq_filter_sum]
    simp

def c10wNodes : List Node := [{ name := "n1" }]

def c10wPods : List Pod :=
  [{ nodeName := "n1", phase := "Running" },
   { nodeName := "", phase := "Running" }]

theorem c10_total_includes_unassigned_iff_witness :
    (c10wNodes.map Node.name).Nodup ∧
    (unassignedKey ∈ (nodeAggOut c10wNodes c10wPods true true).names ↔ true = true) ∧
    unassignedKey ∉ (nodeAggOut c10wNodes c10wPods false true).names ∧
    (((nodeAggOut c10wNodes c10wPods true true).data unassignedKey).getD
      ({} : NodeCapacityData)).TotalPodCount = 1 ∧
    (((nodeAggOut c10wNodes c10wPods true true).data grandTotalKey).getD
      ({} : NodeCapacityData)).TotalPodCount =
      (((nodeAggOut c10wNodes c10wPods false true).data grandTotalKey).getD
        ({} : NodeCapacityData)).TotalPodCount +
      (((nodeAggOut c10wNodes c10wPods true true).data unassignedKey).getD
        ({} : NodeCapacityData)).TotalPodCount := by
  have h := c10_total_includes_unassigned_iff c10wNodes c10wPods true (by decide) (by decide)
    (by decide) (by decide) (by decide) (by decide)
  refine ⟨by decide, h.1 true, ?_, ?_, ?_⟩
  · intro hm
    exact absurd ((h.1 false).mp hm) (by decide)
  · rw [h.2.2.1]
    decide
  · rw [h.2.1]
    exact h.2.2.2.2.2.1 _ _

theorem alGet_alAppend (k v q : String) :
    ∀ al : List (String × List String),
      alGet (alAppend al k v) q =
        if k = q then alGet al q ++ [v] else alGet al q := by
  intro al
  induction al with
  | nil =>
    by_cases hk : k = q
    · simp [alAppend, alGet, hk]
    · simp [alAppend, alGet, hk]
  | cons hd rest ih =>
    obtain ⟨k0, vs⟩ := hd
    by_cases h0 : k0 = k
    · subst h0
      by_cases hq : k0 = q
      · subst hq
        simp [alAppend, alGet]
      · simp [alAppend, alGet, hq]
    · by_cases hq : k0 = q
      · subst hq
        have hkq : k ≠ k0 := fun h => h0 h.symm
        simp [alAppend, alGet, h0, hkq]
      · simp [alAppend, alGet, h0, hq, ih]

theorem nodeWalk_go_byRole (nodes : List Node) :
    ∀ st : NodeWalkState,
      (nodes.foldl
        (fun st n =>
          { names := st.names ++ [n.name]
            data := updMap st.data n.name (nodeEntry n)
            byRole := alAppend st.byRole (roleSig (rolesOf n.labels)) n.name }) st).byRole =
      nodes.foldl (fun al n => alAppend al (roleSig (rolesOf n.labels)) n.name) st.byRole := by
  induction nodes with
  | nil => intro st; rfl
  | cons n rest ih => intro st; exact ih _

theorem alFold_get (sig : String) :
    ∀ (nodes : List Node) (al : List (String × List String)),
      alGet (nodes.foldl (fun al n => alAppend al (roleSig (rolesOf n.labels)) n.name) al)
          sig =
        alGet al sig ++
          (nodes.filter (fun n => roleSig (rolesOf n.labels) == sig)).map Node.name := by
  intro nodes
  induction nodes with
  | nil => intro al; simp
  | cons n rest ih =>
    intro al
    simp only [List.foldl_cons]
    rw [ih, alGet_alAppend]
    by_cases hg : roleSig (rolesOf n.labels) = sig
    · rw [if_pos hg]
      have hb : (roleSig (rolesOf n.labels) == sig) = true := by simp [hg]
      simp [List.filter_cons, hb]
    · rw [if_neg hg]
      have hb : (roleSig (rolesOf n.labels) == sig) = false := by simp [hg]
      simp [List.filter_cons, hb]

theorem nodeWalk_byRole (nodes : List Node) (sig : String) :
    alGet (nodeWalk nodes).byRole sig =
      (nodes.filter (fun n => roleSig (rolesOf n.labels) == sig)).map Node.name := by
  rw [show (nodeWalk nodes).byRole =
      nodes.foldl (fun al n => alAppend al (roleSig (rolesOf n.labels)) n.name) [] from
      nodeWalk_go_byRole nodes {}]
  rw [alFold_get sig nodes []]
  simp [alGet]

/-- C9 (amended): in the default mode the displayed node rows are the node
names in case-sensitive lexicographic order with the synthetic rows appended
last and only when requested; the classified role names and the namespace
names are likewise displayed sorted. In the sort-by-role mode only the
signature group keys are sorted (the synthetic rows live under the late `~`
key): each displayed group is the stored `nodesByRole` slice, which holds
exactly the matching nodes in input (walk) order and is never re-sorted. -/
theorem c9_ordering_amended (nodes : List Node) (pods : List Pod) (u t : Bool)
    (namespaces : List String)
    (hw : ∀ p ∈ pods, p.nodeName = "" ∨ p.nodeName ∈ nodes.map Node.name) :
    (displayNodeOrder (nodeAggOut nodes pods u t) false =
      (if t then
        (if u then List.insertionSort strLe (nodes.map Node.name) ++ [unassignedKey]
         else List.insertionSort strLe (nodes.map Node.name)) ++ [grandTotalKey]
      else
        (if u then List.insertionSort strLe (nodes.map Node.name) ++ [unassignedKey]
         else List.insertionSort strLe (nodes.map Node.name)))) ∧
    List.Sorted strLe (List.insertionSort strLe (nodes.map Node.name)) ∧
    (List.insertionSort strLe (nodes.map Node.name)).Perm (nodes.map Node.name) ∧
    (∀ sig, alGet (nodeWalk nodes).byRole sig =
      (nodes.filter (fun n => roleSig (rolesOf n.labels) == sig)).map Node.name) ∧
    (displayNodeOrder (nodeAggOut nodes pods u t) true =
      ((List.insertionSort strLe ((nodeAggOut nodes pods u t).byRole.map Prod.fst)).map
        (fun k => alGet (nodeAggOut nodes pods u t).byRole k)).flatten) ∧
    (∀ sig, sig ≠ tildeKey →
      alGet (nodeAggOut nodes pods u t).byRole sig =
        (nodes.filter (fun n => roleSig (rolesOf n.labels) == sig)).map Node.name) ∧
    (alGet (nodeAggOut nodes pods u t).byRole tildeKey =
      alGet (nodeWalk nodes).byRole tildeKey ++
        (if u then [unassignedKey] else []) ++ (if t then [grandTotalKey] else [])) ∧
    ((nodeRoleAgg nodes pods u).1 =
      (if u then List.insertionSort strLe (roleNodePhase nodes).roleNames ++ [unassignedKey]
       else List.insertionSort strLe (roleNodePhase nodes).roleNames)) ∧
    List.Sorted strLe (List.insertionSort strLe (roleNodePhase nodes).roleNames) ∧
    List.Sorted strLe (displayNamespaceOrder namespaces) ∧
    (displayNamespaceOrder namespaces).Perm namespaces := by
  obtain ⟨m', hok⟩ := nodeCapacityAgg_isOk nodes pods hw
  have heq := nodeCapacityAgg_eq nodes pods u t m' hok
  have hnames : (nodeWalk nodes).names = nodes.map Node.name := nodeWalk_names nodes
  have hnamesOut : (nodeAggOut nodes pods u t).names =
      (if t then
        (if u then List.insertionSort strLe (nodes.map Node.name) ++ [unassignedKey]
         else List.insertionSort strLe (nodes.map Node.name)) ++ [grandTotalKey]
      else
        (if u then List.insertionSort strLe (nodes.map Node.name) ++ [unassignedKey]
         else List.insertionSort strLe (nodes.map Node.name))) := by
    simp only [nodeAggOut, heq, hnames]
  have hbr : (nodeAggOut nodes pods u t).byRole =
      (if t then
        alAppend
          (if u then alAppend (nodeWalk nodes).byRole tildeKey unassignedKey
           else (nodeWalk nodes).byRole) tildeKey grandTotalKey
      else
        (if u then alAppend (nodeWalk nodes).byRole tildeKey unassignedKey
         else (nodeWalk nodes).byRole)) := by
    simp only [nodeAggOut, heq]
  refine ⟨hnamesOut, List.sorted_insertionSort strLe _, List.perm_insertionSort strLe _,
    fun sig => nodeWalk_byRole nodes sig, rfl, ?_, ?_, rfl,
    List.sorted_insertionSort strLe _, List.sorted_insertionSort strLe _,
    List.perm_insertionSort strLe _⟩
  · intro sig hs
    have htn : ¬ (tildeKey = sig) := fun h => hs h.symm
    have hstep : ∀ (X : List (String × List String)) (y : String),
        alGet (alAppend X tildeKey y) sig = alGet X sig := by
      intro X y
      rw [alGet_alAppend, if_neg htn]
    rw [hbr]
    cases t <;> cases u <;>
      simp only [reduceIte, Bool.false_eq_true, if_false, hstep] <;>
      exact nodeWalk_byRole nodes sig
  · have hsteps : ∀ (X : List (String × List String)) (y : String),
        alGet (alAppend X tildeKey y) tildeKey = alGet X tildeKey ++ [y] := by
      intro X y
      rw [alGet_alAppend, if_pos rfl]
    rw [hbr]
    cases t <;> cases u <;>
      simp only [reduceIte, Bool.false_eq_true, if_false, hsteps, List.append_nil]

theorem c9_ordering_amended_witness :
    (∀ p ∈ ([] : List Pod),
      p.nodeName = "" ∨ p.nodeName ∈ [outOfOrderNodeB, outOfOrderNodeA].map Node.name) ∧
    displayNodeOrder (nodeAggOut [outOfOrderNodeB, outOfOrderNodeA] [] true true) false =
      ["a-node", "b-node", unassignedKey, grandTotalKey] ∧
    alGet (nodeWalk [outOfOrderNodeB, outOfOrderNodeA]).byRole (roleSig [noneRoleName]) =
      ["b-node", "a-node"] ∧
    alGet (nodeAggOut [outOfOrderNodeB, outOfOrderNodeA] [] true true).byRole tildeKey =
      [unassignedKey, grandTotalKey] := by
  have h := c9_ordering_amended [outOfOrderNodeB, outOfOrderNodeA] [] true true []
    (by decide)
  refine ⟨by decide, ?_, ?_, ?_⟩
  · rw [h.1]
    decide
  · rw [h.2.2.2.1 (roleSig [noneRoleName])]
    decide
  · rw [h.2.2.2.2.2.2.1]
    decide
